import Mathlib

/-!
Verification of the coordinate re-projection core of the agp-tpf-utils
assembly curation tool, as a shallow embedding of the Python sources
under `src/tola/assembly/`.

Conventions of the embedding:
* Python `int` is `Int`; list indices are `Nat`.
* Python `end` attributes are called `stop` (`end` is a Lean keyword).
* Python `is` (object identity) on rows is modelled by structural
  equality; identity implies structural equality, and every branch the
  code takes depends only on which test succeeded.
* Python exceptions are modelled with `Except String`; an operation that
  cannot raise on the inputs considered is left pure.
-/

namespace Tola

/-- `Fragment` from `fragment.py`: an interval of a named input scaffold. -/
structure Fragment where
  name : String
  start : Int
  stop : Int
  strand : Int
  tags : List String := []
  deriving DecidableEq, Repr

/-- `Gap` from `gap.py`. The unused `meta` field is omitted. -/
structure Gap where
  length : Int
  gap_type : String
  deriving DecidableEq, Repr

/-- A row of a `Scaffold` is a `Fragment` or a `Gap` (`scaffold.py`). -/
inductive Row where
  | frag (f : Fragment)
  | gap (g : Gap)
  deriving DecidableEq, Repr

/-- `Fragment.length`: `end - start + 1`. -/
def Fragment.length (f : Fragment) : Int := f.stop - f.start + 1

/-- `Fragment.key_tuple`: `(name, start, end)`. -/
def Fragment.key_tuple (f : Fragment) : String × Int × Int := (f.name, f.start, f.stop)

/-- `Fragment.reverse`: same interval, negated strand. -/
def Fragment.reverse (f : Fragment) : Fragment := { f with strand := -1 * f.strand }

/-- `Fragment.overlaps`: same name and intersecting intervals. -/
def Fragment.overlaps (f othr : Fragment) : Bool :=
  f.name = othr.name && othr.start ≤ f.stop && f.start ≤ othr.stop

/-- `Fragment.abuts`: same name and one interval starts right after the other. -/
def Fragment.abuts (f othr : Fragment) : Bool :=
  f.name = othr.name && (f.stop + 1 = othr.start || othr.stop + 1 = f.start)

/-- `Fragment.gap_between`: `none` for different names or overlapping or
abutting-with-overlap shapes, `some 0` when abutting, `some g` for a gap
of `g` bases.  Mirrors the Python return values `None`, `0`, positive. -/
def Fragment.gap_between (f othr : Fragment) : Option Int :=
  if f.name ≠ othr.name then none
  else
    let gap_start := min f.stop othr.stop
    let gap_end := max f.start othr.start
    if gap_start < gap_end then some (gap_end - gap_start - 1) else none

/-- One leg of a junction tuple: Python mixes `str` and `int` freely in
the 4-tuples returned by `junction_tuple`. -/
def JPart := String ⊕ Int

deriving instance DecidableEq, Repr for JPart

/-- A junction is the 4-tuple from `Fragment.junction_tuple`. -/
def Junction := JPart × JPart × JPart × JPart

deriving instance DecidableEq, Repr for Junction

/-- `Fragment.junction_tuple` from `fragment.py`; `none` models the
`ValueError` raised for strand 0. -/
def Fragment.junction_tuple (f othr : Fragment) : Option Junction :=
  if f.strand = 1 then
    if othr.strand = 1 then
      some (.inl f.name, .inr f.stop, .inl othr.name, .inr othr.start)
    else if othr.strand = -1 then
      some (.inl f.name, .inr f.stop, .inr othr.stop, .inl othr.name)
    else none
  else if f.strand = -1 then
    if othr.strand = 1 then
      some (.inr f.start, .inl f.name, .inl othr.name, .inr othr.start)
    else if othr.strand = -1 then
      some (.inl othr.name, .inr othr.stop, .inl f.name, .inr f.start)
    else none
  else none

/-- Length of a row (`Fragment.length` or `Gap.length`). -/
def Row.length : Row → Int
  | .frag f => f.length
  | .gap g => g.length

/-- Is this row a `Gap`? (`isinstance(row, Gap)`) -/
def Row.isGap : Row → Bool
  | .frag _ => false
  | .gap _ => true

/-- Is this row a `Fragment`? (`isinstance(row, Fragment)`) -/
def Row.isFrag : Row → Bool
  | .frag _ => true
  | .gap _ => false

/-- `Scaffold` from `scaffold.py`, with the metadata fields the claims
need.  `rank`, `tag`, `haplotype`, `original_name`, `original_tags` keep
their Python meanings. -/
structure Scaffold where
  name : String
  rows : List Row := []
  tag : Option String := none
  haplotype : Option String := none
  rank : Int := 0
  original_name : Option String := none
  original_tags : List String := []
  deriving DecidableEq, Repr

/-- `Scaffold.fragments()`: the fragment rows in order. -/
def Scaffold.fragments (s : Scaffold) : List Fragment :=
  s.rows.filterMap fun r => match r with | .frag f => some f | .gap _ => none

/-- `Scaffold.length`: sum of row lengths. -/
def Scaffold.length (s : Scaffold) : Int := (s.rows.map Row.length).sum

/-- `Scaffold.fragments_length`: sum of fragment lengths. -/
def Scaffold.fragments_length (s : Scaffold) : Int :=
  (s.fragments.map Fragment.length).sum

/-- `Scaffold.reverse`: rows in reverse order, fragments strand-negated,
gaps untouched. -/
def Scaffold.reverse (s : Scaffold) : Scaffold :=
  { s with rows := s.rows.reverse.map fun r =>
      match r with
      | .frag f => .frag f.reverse
      | .gap g => .gap g }

/-- The junctions of a list of adjacent fragments: one `junction_tuple`
per consecutive pair.  (`Scaffold.fragment_junction_set` iterates the
fragments of the scaffold pairwise.) -/
def junctionList : List Fragment → List (Option Junction)
  | a :: b :: t => a.junction_tuple b :: junctionList (b :: t)
  | _ => []

/-- `Scaffold.fragment_junction_set` from `scaffold.py`, as a `Finset`.
On the scaffolds considered by the claims every strand is `±1`, so no
`junction_tuple` call raises and the `Option` layer is exact. -/
def Scaffold.fragment_junction_set (s : Scaffold) : Finset (Option Junction) :=
  (junctionList s.fragments).toFinset

/-- `OverlapResult` from `overlap_result.py`: rows of an input scaffold
covered by a bait, with the scaffold coordinates `start`/`stop` of the
covered span. -/
structure OverlapResult where
  bait : Fragment
  rows : List Row
  start : Int
  stop : Int
  deriving DecidableEq, Repr

/-- `OverlapResult.length`: `end - start + 1`. -/
def OverlapResult.length (o : OverlapResult) : Int := o.stop - o.start + 1

/-- `OverlapResult.start_overhang`: `bait.start - start`. -/
def OverlapResult.start_overhang (o : OverlapResult) : Int := o.bait.start - o.start

/-- `OverlapResult.end_overhang`: `end - bait.end`. -/
def OverlapResult.end_overhang (o : OverlapResult) : Int := o.stop - o.bait.stop

/-- `OverlapResult.start_row_bait_overlap`: length of the overlap between
the bait and the first row.  (Python indexes `rows[0]` and would raise on
an empty list; every use below carries a nonempty-rows hypothesis.) -/
def OverlapResult.start_row_bait_overlap (o : OverlapResult) : Int :=
  let firstLen := ((o.rows.head?).map Row.length).getD 0
  let s := max o.bait.start o.start
  let e := min o.bait.stop (o.start + firstLen - 1)
  if e < s then 0 else e - s + 1

/-- `OverlapResult.end_row_bait_overlap`: length of the overlap between
the bait and the last row. -/
def OverlapResult.end_row_bait_overlap (o : OverlapResult) : Int :=
  let lastLen := ((o.rows.getLast?).map Row.length).getD 0
  let s := max o.bait.start (o.stop - lastLen + 1)
  let e := min o.bait.stop o.stop
  if e < s then 0 else e - s + 1

/-- Strip leading `Gap` rows, returning the remaining rows and the total
length stripped (the `while ... isinstance(..., Gap)` loops of
`discard_start` / `discard_end`). -/
def dropLeadingGaps : List Row → List Row × Int
  | .gap g :: t => let (r, n) := dropLeadingGaps t; (r, g.length + n)
  | l => (l, 0)

/-- `OverlapResult.discard_start`: pop the first row, then any Gaps now
leading, advancing `start` by every removed length. -/
def OverlapResult.discard_start (o : OverlapResult) : OverlapResult :=
  match o.rows with
  | [] => o
  | r :: rest =>
    let (rest1, g) := dropLeadingGaps rest
    { o with rows := rest1, start := o.start + r.length + g }

/-- `OverlapResult.discard_end`: pop the last row, then any Gaps now
trailing, reducing `stop` by every removed length. -/
def OverlapResult.discard_end (o : OverlapResult) : OverlapResult :=
  match o.rows.reverse with
  | [] => o
  | r :: rest =>
    let (rest1, g) := dropLeadingGaps rest
    { o with rows := rest1.reverse, stop := o.stop - r.length - g }

/-- Modelled from the spec: `overhang_if_start_removed()` — "what
`start_overhang` would become if the terminal row (and consecutive
trailing gaps) were discarded".  The method is called by
`build_utils.py` and exercised by `tests/overlap_result_test.py` but its
definition is missing from `overlap_result.py` (which has only the
differently-valued `error_if_start_removed`). -/
def OverlapResult.overhang_if_start_removed (o : OverlapResult) : Int :=
  match o.rows with
  | [] => o.start_overhang
  | r :: rest =>
    let (_, g) := dropLeadingGaps rest
    o.bait.start - (o.start + r.length + g)

/-- Modelled from the spec: `overhang_if_end_removed()` — "what
`end_overhang` would become if the terminal row (and consecutive
trailing gaps) were discarded" (see `overhang_if_start_removed`). -/
def OverlapResult.overhang_if_end_removed (o : OverlapResult) : Int :=
  match o.rows.reverse with
  | [] => o.end_overhang
  | r :: rest =>
    let (_, g) := dropLeadingGaps rest
    (o.stop - r.length - g) - o.bait.stop

/-- The second conditional of `trim_large_overhangs` (`overlap_result.py`
lines 218-219): discard the end when it overhangs by more than
`err_length` and the last row's bait overlap is under `err_length`.
`Except.error` models the `IndexError` Python raises when
`end_row_bait_overlap` indexes into an empty row list. -/
def OverlapResult.trim_end_side (o1 : OverlapResult) (err_length : Int) :
    Except String OverlapResult :=
  if err_length < o1.end_overhang then
    if o1.rows.isEmpty then .error "IndexError"
    else .ok (if o1.end_row_bait_overlap < err_length then o1.discard_end else o1)
  else .ok o1

/-- `OverlapResult.trim_large_overhangs` from `overlap_result.py`.
`Except.error` models the `IndexError` Python raises when a bait-overlap
property indexes into an empty row list. -/
def OverlapResult.trim_large_overhangs (o : OverlapResult) (err_length : Int) :
    Except String OverlapResult :=
  if o.rows.length = 1 ∧ err_length < o.bait.length then .ok o
  else
    let step1 : Except String OverlapResult :=
      if err_length < o.start_overhang then
        if o.rows.isEmpty then .error "IndexError"
        else .ok (if o.start_row_bait_overlap < err_length then o.discard_start else o)
      else .ok o
    match step1 with
    | .error e => .error e
    | .ok o1 => o1.trim_end_side err_length

/-- `OverlapResult.fragment_start_if_trimmed` from `overlap_result.py`. -/
def OverlapResult.fragment_start_if_trimmed (o : OverlapResult) (frag : Fragment) : Int :=
  if frag.strand = 1 then
    if o.rows.head? = some (.frag frag) then frag.start + o.start_overhang
    else frag.start
  else
    if o.rows.getLast? = some (.frag frag) then frag.start + o.end_overhang
    else frag.start

/-- `OverlapResult.trim_fragment` from `overlap_result.py`: replace the
terminal occurrence of `trim` with the sub-fragment this result is
entitled to keep, moving `start`/`stop` inward by the trimmed overhangs.
Errors model the `ValueError`s of the method and of the `Fragment`
constructor (`start > end`). -/
def OverlapResult.trim_fragment (o : OverlapResult) (trim : Fragment)
    (keep_start keep_end : Bool) : Except String (OverlapResult × Fragment) :=
  let atStart : Bool := o.rows.head? = some (Row.frag trim)
  let atEnd : Bool := o.rows.getLast? = some (Row.frag trim)
  if !atStart && !atEnd then .error "Fragment not found in OverlapResult"
  else
    let sOvr := o.start_overhang
    let trimS : Bool := atStart && decide (0 < sOvr) && !keep_start
    let start1 := if trimS then (if trim.strand = 1 then trim.start + sOvr else trim.start)
                  else trim.start
    let stop1 := if trimS then (if trim.strand = 1 then trim.stop else trim.stop - sOvr)
                 else trim.stop
    let oStart1 := if trimS then o.start + sOvr else o.start
    let eOvr := o.end_overhang
    let trimE : Bool := atEnd && decide (0 < eOvr) && !keep_end
    let stop2 := if trimE then (if trim.strand = 1 then stop1 - eOvr else stop1) else stop1
    let start2 := if trimE then (if trim.strand = 1 then start1 else start1 + eOvr)
                  else start1
    let oStop1 := if trimE then o.stop - eOvr else o.stop
    if stop2 < start2 then .error "start must be <= end"
    else
      let newF : Fragment :=
        ⟨trim.name, start2, stop2, trim.strand,
          "Cut" :: o.bait.tags.filter (fun t => t ≠ "Painted")⟩
      let newRows := if atEnd then o.rows.dropLast ++ [Row.frag newF]
                     else Row.frag newF :: o.rows.tail
      .ok ({ o with rows := newRows, start := oStart1, stop := oStop1 }, newF)

/-!  `IndexedAssembly` (`indexed_assembly.py`): per-scaffold prefix sums
of row end positions, binary search, and `find_overlaps`. -/

/-- Row end positions starting from offset `acc` (`add_scaffold`'s
index-building loop). -/
def overlapIndexFrom (acc : Int) : List Row → List Int
  | [] => []
  | r :: t => (acc + r.length) :: overlapIndexFrom (acc + r.length) t

/-- The per-scaffold index `idx`: `idx[i]` = end position of row `i`. -/
def overlapIndex (rows : List Row) : List Int := overlapIndexFrom 0 rows

/-- `idx[m]` (the scaffold end coordinate of row `m`). -/
def idxEndPos (idx : List Int) (m : Nat) : Int := idx.getD m 0

/-- `1` if `m == 0` else `1 + idx[m-1]` (start coordinate of row `m`). -/
def idxStartPos (idx : List Int) (m : Nat) : Int :=
  if m = 0 then 1 else 1 + idx.getD (m - 1) 0

/-- The binary search of `__get_overlap_fragment_indices`: find any row
index in `[a, z)` whose scaffold interval intersects `[s, e]`.  `fuel`
bounds the iteration count; each step shrinks `z - a`, so any
`fuel ≥ z - a` is enough (`find_overlaps` passes `idx.length + 1`). -/
def binSearch (idx : List Int) (s e : Int) : Nat → Nat → Nat → Option Nat
  | 0, _, _ => none
  | fuel + 1, a, z =>
    if a < z then
      if idxEndPos idx (a + (z - a) / 2) < s then
        binSearch idx s e fuel (a + (z - a) / 2 + 1) z
      else if e < idxStartPos idx (a + (z - a) / 2) then
        binSearch idx s e fuel a (a + (z - a) / 2)
      else some (a + (z - a) / 2)
    else none

/-- The leftward extension loop: walk `i` down while `idx[i-1] ≥ s`. -/
def extendLeft (idx : List Int) (s : Int) : Nat → Nat
  | 0 => 0
  | i + 1 => if s ≤ idxEndPos idx i then extendLeft idx s i else i + 1

/-- The rightward extension loop: walk `j` up while the next row starts
at or before `e`.  Any `fuel ≥ idx.length - j` is enough. -/
def extendRight (idx : List Int) (e : Int) : Nat → Nat → Nat
  | 0, j => j
  | fuel + 1, j =>
    if j + 1 < idx.length then
      if idxStartPos idx (j + 1) ≤ e then extendRight idx e fuel (j + 1) else j
    else j

/-- The forward Gap walk of `find_overlaps`: first non-Gap row index at
or after `i`, `none` when the walk runs off the list (Python
`IndexError`).  Any `fuel > rows.length - i` is enough. -/
def firstFragIdx (rows : List Row) : Nat → Nat → Option Nat
  | 0, _ => none
  | fuel + 1, i =>
    if h : i < rows.length then
      if (rows.get ⟨i, h⟩).isGap then firstFragIdx rows fuel (i + 1) else some i
    else none

/-- Python list indexing: non-negative indices from the front, indices in
`[-len, -1]` from the back, anything else raises (`none`). -/
def pyGet (rows : List Row) (j : Int) : Option Row :=
  if 0 ≤ j then rows.get? j.toNat
  else if -(rows.length : Int) ≤ j then rows.get? ((rows.length : Int) + j).toNat
  else none

/-- The backward Gap walk of `find_overlaps`: Python decrements `j_ovr`
past leading Gaps, wrapping around through negative indices.  `fuel`
bounds the walk; `find_overlaps` passes enough fuel that exhaustion is
unreachable (see `backWalk_stops_at_lastFrag`). -/
def backWalk (rows : List Row) : Nat → Int → Option Int
  | 0, _ => none
  | fuel + 1, j =>
    match pyGet rows j with
    | none => none
    | some r => if r.isGap then backWalk rows fuel (j - 1) else some j

/-- `IndexedAssembly`: scaffolds stored by name (`add_scaffold` refuses
duplicate names, so an association list with distinct keys is exact). -/
structure IndexedAssembly where
  scaffolds : List (String × List Row)
  deriving Repr

/-- `scaffold_by_name` (as an `Option`; `find_overlaps` turns `none`
into the `ValueError`). -/
def IndexedAssembly.scaffold_by_name (asm : IndexedAssembly) (name : String) :
    Option (List Row) :=
  asm.scaffolds.lookup name

/-- `IndexedAssembly.find_overlaps` from `indexed_assembly.py`.
`Except.error` models the `ValueError`s (unknown or empty scaffold) and
the `IndexError` of the terminal-Gap walks; `Option` is the method's
`None` result. -/
def IndexedAssembly.find_overlaps (asm : IndexedAssembly) (bait : Fragment) :
    Except String (Option OverlapResult) :=
  match asm.scaffold_by_name bait.name with
  | none => .error "No such Scaffold"
  | some rows =>
    if rows.isEmpty then .error "Scaffold is empty"
    else
      let idx := overlapIndex rows
      match binSearch idx bait.start bait.stop (idx.length + 1) 0 idx.length with
      | none => .ok none
      | some ovr =>
        let iLo := extendLeft idx bait.start ovr
        let jHi := extendRight idx bait.stop (idx.length + 1) ovr
        match firstFragIdx rows (rows.length + 1) iLo with
        | none => .error "IndexError"
        | some i1 =>
          match backWalk rows (2 * rows.length + 2) (jHi : Int) with
          | none => .error "IndexError"
          | some j1 =>
            if (i1 : Int) ≤ j1 then
              let j2 := j1.toNat
              .ok (some ⟨bait, (rows.take (j2 + 1)).drop i1,
                idxStartPos idx i1, idxEndPos idx j2⟩)
            else .ok none

/-!  The contract of `find_overlaps` as §4.1 of the specification states
it, written directly from the spec's words for comparison with the
implementation above. -/

/-- Total length of the first `i` rows. -/
def lenSum (rows : List Row) (i : Nat) : Int :=
  ((rows.take i).map Row.length).sum

/-- Scaffold coordinate of the first base of row `i` (1-based). -/
def rowStartPos (rows : List Row) (i : Nat) : Int := 1 + lenSum rows i

/-- Scaffold coordinate of the last base of row `i`. -/
def rowEndPos (rows : List Row) (i : Nat) : Int := lenSum rows (i + 1)

/-- Row at index `i`, defaulting to a zero-length `Gap` out of range. -/
def rowAt (rows : List Row) (i : Nat) : Row := rows.getD i (Row.gap ⟨0, ""⟩)

/-- The `Nat` index a Python index `j ∈ [-len, len)` denotes. -/
def pyIdx (rows : List Row) (j : Int) : Nat :=
  if 0 ≤ j then j.toNat else ((rows.length : Int) + j).toNat

/-- Does row `i` intersect `[s, e]` in scaffold coordinates? -/
def rowIntersects (rows : List Row) (s e : Int) (i : Nat) : Bool :=
  rowStartPos rows i ≤ e && s ≤ rowEndPos rows i

/-- Indices of Fragment rows intersecting `[s, e]`, in order. -/
def fragIntersecting (rows : List Row) (s e : Int) : List Nat :=
  (List.range rows.length).filter fun i =>
    (rowAt rows i).isFrag && rowIntersects rows s e i

/-- The specification's contract for `find_overlaps` (§4.1): the rows
from the first to the last intersecting Fragment row (leading/trailing
Gaps thereby trimmed), with `start`/`end` the scaffold-coordinate bounds
of the returned rows, or `none` when no Fragment row intersects. -/
def specFindOverlaps (rows : List Row) (bait : Fragment) : Option OverlapResult :=
  match (fragIntersecting rows bait.start bait.stop).head?,
    (fragIntersecting rows bait.start bait.stop).getLast? with
  | some i, some j =>
    some ⟨bait, (rows.take (j + 1)).drop i, rowStartPos rows i, rowEndPos rows j⟩
  | _, _ => none


/-!  `OverhangPremise` and `OverhangResolver` (`build_utils.py`).  The
OverlapResults an OverhangPremise refers to by Python object reference
are held in a store (a list); a premise carries the index of its result,
and its metrics are read off the current store. -/

/-- Which terminal row a premise would remove: `StartOverhangPremise`
(`.start`) or `EndOverhangPremise` (`.stop`). -/
inductive PremiseSide where
  | start
  | stop
  deriving DecidableEq, Repr

/-- `OverhangPremise` from `build_utils.py`: the OverlapResult (by store
index), the shared terminal fragment, and the variant. -/
structure OverhangPremise where
  sid : Nat
  fragment : Fragment
  side : PremiseSide
  deriving DecidableEq, Repr

/-- Fetch a premise's OverlapResult from the store.  The default is never
read on valid store indices. -/
def storeGet (st : List OverlapResult) (sid : Nat) : OverlapResult :=
  st.getD sid ⟨⟨"", 1, 1, 0, []⟩, [], 1, 0⟩

/-- `OverhangPremise.bait_overlap`. -/
def OverhangPremise.bait_overlap (p : OverhangPremise) (st : List OverlapResult) : Int :=
  match p.side with
  | .start => (storeGet st p.sid).start_row_bait_overlap
  | .stop => (storeGet st p.sid).end_row_bait_overlap

/-- `OverhangPremise.overhang_if_applied`. -/
def OverhangPremise.overhang_if_applied (p : OverhangPremise) (st : List OverlapResult) : Int :=
  match p.side with
  | .start => (storeGet st p.sid).overhang_if_start_removed
  | .stop => (storeGet st p.sid).overhang_if_end_removed

/-- The overhang at the end a premise targets (before or after applying). -/
def OverhangPremise.overhang_at_side (p : OverhangPremise) (st : List OverlapResult) : Int :=
  match p.side with
  | .start => (storeGet st p.sid).start_overhang
  | .stop => (storeGet st p.sid).end_overhang

/-- `OverhangPremise.overhang_error_delta_if_applied`:
`|new overhang| - |current overhang|`. -/
def OverhangPremise.overhang_error_delta_if_applied
    (p : OverhangPremise) (st : List OverlapResult) : Int :=
  |p.overhang_if_applied st| - |p.overhang_at_side st|

/-- `OverhangPremise.improves` from `build_utils.py`. -/
def OverhangPremise.improves (p : OverhangPremise) (st : List OverlapResult)
    (err_length : Int) : Bool :=
  if (storeGet st p.sid).rows.length = 1 then false
  else
    decide (p.overhang_error_delta_if_applied st < 0) &&
      decide (-3 * err_length < p.overhang_if_applied st)

/-- `OverhangPremise.makes_worse`: `not improves`. -/
def OverhangPremise.makes_worse (p : OverhangPremise) (st : List OverlapResult)
    (err_length : Int) : Bool :=
  !(p.improves st err_length)

/-- `OverhangPremise.apply`: `discard_start` / `discard_end` on the
premise's OverlapResult. -/
def OverhangPremise.applyP (p : OverhangPremise) (st : List OverlapResult) :
    List OverlapResult :=
  match p.side with
  | .start => st.set p.sid (storeGet st p.sid).discard_start
  | .stop => st.set p.sid (storeGet st p.sid).discard_end

/-- The body of `OverhangResolver.make_fixes` for one fragment key's
premise list: returns the updated store and the fixes recorded.  Python's
stable `sorted` is modelled by `List.insertionSort` (a stable sort) on
the same key. -/
def makeFixesForList (err_length : Int) (st : List OverlapResult)
    (prem_list : List OverhangPremise) :
    List OverlapResult × List OverhangPremise :=
  let general : List OverlapResult × List OverhangPremise :=
    if 1 < prem_list.length then
      match prem_list.insertionSort
        (fun a b => a.overhang_error_delta_if_applied st ≤
          b.overhang_error_delta_if_applied st) with
      | bst :: nxt :: _ =>
        if bst.improves st err_length && nxt.makes_worse st err_length then
          (bst.applyP st, [bst])
        else (st, [])
      | _ => (st, [])
    else (st, [])
  match prem_list with
  | [frst, scnd] =>
    if frst.bait_overlap st < err_length ∧ scnd.bait_overlap st < err_length then
      if frst.bait_overlap st < scnd.bait_overlap st then (frst.applyP st, [frst])
      else (scnd.applyP st, [scnd])
    else general
  | _ => general

/-- `OverhangResolver.make_fixes`: fold `makeFixesForList` over the
premise lists (dict insertion order), threading the store. -/
def make_fixes (err_length : Int) (st : List OverlapResult)
    (lists : List (List OverhangPremise)) :
    List OverlapResult × List OverhangPremise :=
  lists.foldl
    (fun (acc : List OverlapResult × List OverhangPremise) prem_list =>
      let (st1, fixes) := makeFixesForList err_length acc.1 prem_list
      (st1, acc.2 ++ fixes))
    (st, [])

/-!  `BuildAssembly.cut_fragments` and its QC (`build_assembly.py`). -/

/-- Consecutive pairs of a list. -/
def adjacentPairs : List α → List (α × α)
  | a :: b :: t => (a, b) :: adjacentPairs (b :: t)
  | _ => []

/-- The sort key of `qc_sub_fragments`: `(start, end)` lexicographic. -/
def fragLE (a b : Fragment) : Prop :=
  a.start < b.start ∨ (a.start = b.start ∧ a.stop ≤ b.stop)

instance : DecidableRel fragLE := fun a b =>
  decidable_of_iff (a.start < b.start ∨ (a.start = b.start ∧ a.stop ≤ b.stop)) Iff.rfl

instance : IsTotal Fragment fragLE :=
  ⟨fun a b => by unfold fragLE; omega⟩

instance : IsTrans Fragment fragLE :=
  ⟨fun a b c => by unfold fragLE; omega⟩

/-- The QC of `qc_sub_fragments`: sub-fragment lengths sum to the
original length, and sorted by `(start, end)` the adjacent pairs show no
overlap, `n - 1` abutments, and no non-zero gap (`if g := ...` is falsy
for both `None` and `0`). -/
def qc_sub_fragments_ok (frgmnt : Fragment) (subs : List Fragment) : Bool :=
  let srtd := subs.insertionSort fragLE
  let pairs := adjacentPairs srtd
  decide (frgmnt.length = (subs.map Fragment.length).sum) &&
    decide ((pairs.countP fun q => q.1.overlaps q.2) = 0) &&
    decide ((pairs.countP fun q => q.1.abuts q.2) = subs.length - 1) &&
    decide ((pairs.filter fun q =>
      match q.1.gap_between q.2 with
      | some g => g ≠ 0
      | none => False) = [])

/-- `BuildAssembly.cut_fragments`: order the OverlapResults sharing
`frgmnt` by `fragment_start_if_trimmed` (Python's stable `sorted`
modelled by the stable `insertionSort`), trim the fragment in each with
`keep_start` only on the first and `keep_end` only on the last, then QC
the sub-fragments; any QC failure raises. -/
def cut_fragments (frgmnt : Fragment) (scaffolds : List OverlapResult) :
    Except String (List Fragment) :=
  let ordered := scaffolds.insertionSort
    (fun a b => a.fragment_start_if_trimmed frgmnt ≤ b.fragment_start_if_trimmed frgmnt)
  let last_i := ordered.length - 1
  match (ordered.enum.mapM fun iv =>
      (iv.2.trim_fragment frgmnt (iv.1 == 0) (iv.1 == last_i)).map Prod.snd : Except String (List Fragment)) with
  | .error e => .error e
  | .ok subs =>
    if qc_sub_fragments_ok frgmnt subs then .ok subs
    else .error "qc_sub_fragments failed"

/-!  `BuildAssembly.add_missing_scaffolds_from_input`
(`build_assembly.py` lines 240-270), per input scaffold. -/

/-- The `(index, fragment)` pairs of `Scaffold.idx_fragments()`. -/
def idxFragments (rows : List Row) : List (Nat × Fragment) :=
  rows.enum.filterMap fun ir =>
    match ir.2 with
    | .frag f => some (ir.1, f)
    | .gap _ => none

/-- The loop body of `add_missing_scaffolds_from_input` for one input
scaffold: walk the indexed fragments, and for each one whose key is not
found, append (when the previously added fragment was not the previous
row) the row before it if that row is a Gap, else the default gap, then
the fragment itself.  `none` models `new_scffld` never being created. -/
def addMissingLoop (found : String × Int × Int → Bool) (dg : Gap) (rows : List Row) :
    List (Nat × Fragment) → Option (List Row) → Option Nat → Option (List Row)
  | [], acc, _ => acc
  | (i, frag) :: rest, acc, last =>
    if found frag.key_tuple then addMissingLoop found dg rows rest acc last
    else
      let acc0 := acc.getD []
      let acc1 :=
        match last with
        | some k =>
          if k ≠ i - 1 then
            acc0 ++ [if (rowAt rows (i - 1)).isGap then rowAt rows (i - 1) else Row.gap dg]
          else acc0
        | none => acc0
      addMissingLoop found dg rows rest (some (acc1 ++ [Row.frag frag])) (some i)

/-- `add_missing_scaffolds_from_input` restricted to one input scaffold:
the fresh rank-3 scaffold emitted for it, or `none` when every fragment
was found. -/
def add_missing_scaffold (found : String × Int × Int → Bool) (dg : Gap)
    (s : Scaffold) : Option Scaffold :=
  (addMissingLoop found dg s.rows (idxFragments s.rows) none none).map
    fun rws => { name := s.name, rows := rws, rank := 3 }

/-- The filler `add_missing_scaffolds_from_input` inserts between two
emitted fragments whose original indices are `prev < i`: nothing when
they were adjacent rows, otherwise the row right before `i` when that
row is a Gap (kept verbatim, even across a missing region), else the
default gap. -/
def missingFill (rows : List Row) (dg : Gap) (prev i : Nat) : List Row :=
  if prev = i - 1 then []
  else [if (rowAt rows (i - 1)).isGap then rowAt rows (i - 1) else Row.gap dg]

/-- The rows emitted after the first kept fragment: fillers interleaved
with the kept fragments. -/
def interleaveFrom (rows : List Row) (dg : Gap) :
    Nat → List (Nat × Fragment) → List Row
  | _, [] => []
  | prev, (i, f) :: rest =>
    missingFill rows dg prev i ++ [Row.frag f] ++ interleaveFrom rows dg i rest

/-!  `ChrNamer` grouping and validation (`naming_utils.py`).  Python
dicts preserve insertion order, so they are modelled by association
lists with keys appended on first use. -/

/-- The ordered `original_name -> scaffolds` map inside a `ChrGroup`
haplotype slot. -/
def OrigMap := List (String × List Scaffold)

/-- A `ChrGroup`: ordered map `haplotype -> OrigMap`, one slot per seen
haplotype, created empty. -/
def ChrGroupL := List (Option String × List (String × List Scaffold))

/-- `ChrGroup.__init__`: one empty slot per haplotype. -/
def newChrGroup (haps : List (Option String)) : ChrGroupL :=
  haps.map fun h => (h, [])

/-- Ordered-dict lookup. -/
def lookupA (m : List (Option String × List (String × List Scaffold)))
    (key : Option String) : List (String × List Scaffold) :=
  (m.lookup key).getD []

/-- `dict.setdefault(orig, []).append(s)` on an `OrigMap`. -/
def origMapAdd (m : List (String × List Scaffold)) (orig : String) (s : Scaffold) :
    List (String × List Scaffold) :=
  if (m.lookup orig).isSome then
    m.map fun kv => if kv.1 = orig then (kv.1, kv.2 ++ [s]) else kv
  else m ++ [(orig, [s])]

/-- `ChrGroup.add_scaffold_to_haplotype`. -/
def addScaffoldToHap (g : ChrGroupL) (hap : Option String) (orig : String)
    (s : Scaffold) : ChrGroupL :=
  (g : List (Option String × List (String × List Scaffold))).map
    fun kv => if kv.1 = hap then (kv.1, origMapAdd kv.2 orig s) else kv

/-- The ordered list of haplotypes seen (`ChrNamer.haplotypes_seen`). -/
def seenHaps (scaffolds : List (Option String × Scaffold)) : List (Option String) :=
  scaffolds.foldl (fun acc hs => if hs.1 ∈ acc then acc else acc ++ [hs.1]) []

/-- `ChrGroup.max_hap_set_count`. -/
def maxHapSetCount (g : ChrGroupL) : Nat :=
  ((g : List (Option String × List (String × List Scaffold))).map
    fun kv => kv.2.length).foldl max 0

/-- The grouping loop of `ChrNamer.build_groups`: state is the finished
groups, the current group, and the last haplotype and original_name. -/
def buildGroupsLoop (otherHaps : Bool) (haps : List (Option String)) :
    List (Option String × Scaffold) →
    List ChrGroupL → ChrGroupL → Option String → Option String →
    Except String (List ChrGroupL)
  | [], done, cur, _, _ => .ok (done ++ [cur])
  | (haplotype, scffld) :: rest, done, cur, lastHap, lastOrig =>
    match scffld.original_name with
    | none => .error "Missing original_name value in Scaffold"
    | some orig =>
      let (done1, cur1) : List ChrGroupL × ChrGroupL :=
        if lookupA cur haplotype ≠ [] then
          if otherHaps then
            if haplotype ≠ lastHap then (done ++ [cur], newChrGroup haps)
            else if some orig ≠ lastOrig ∧
                "Singleton" ∈ (((((lookupA cur haplotype).lookup
                  (lastOrig.getD "")).getD []).head?.map
                    Scaffold.original_tags).getD []) then
              (done ++ [cur], newChrGroup haps)
            else (done, cur)
          else if some orig ≠ lastOrig then (done ++ [cur], newChrGroup haps)
          else (done, cur)
        else (done, cur)
      buildGroupsLoop otherHaps haps rest done1
        (addScaffoldToHap cur1 haplotype orig scffld) haplotype (some orig)

/-- Does a group raise the `<empty>` error in `check_groups`: it shows at
least one row and its first-haplotype slot is empty. -/
def groupEmptyFirstHap (first : Option String) (g : ChrGroupL) : Bool :=
  decide (1 ≤ maxHapSetCount g) && decide (lookupA g first = [])

/-- Are there `check_groups` errors?  With the "Consecutive" check
commented out in `naming_utils.py`, the `<empty>` cell is the only way
`tbl.mark_error()` is reached. -/
def checkGroupsHasErrors (first : Option String) (groups : List ChrGroupL) : Bool :=
  groups.any (groupEmptyFirstHap first)

/-- The grouping pass of `ChrNamer.build_groups` without the final
`check_groups` validation. -/
def buildGroupsRaw (scaffolds : List (Option String × Scaffold)) :
    Except String (List ChrGroupL) :=
  match seenHaps scaffolds with
  | [] => .error "no haplotypes seen"
  | first :: others =>
    if 1 < (first :: others).length ∧ none ∈ first :: others then
      .error "Haplotype tag missing from Painted scaffolds"
    else
      buildGroupsLoop (others ≠ []) (first :: others) scaffolds
        [] (newChrGroup (first :: others)) none none

/-- `ChrNamer.build_groups`: group, then raise `ChrNamerError` when
`check_groups` marked an error. -/
def build_groups (scaffolds : List (Option String × Scaffold)) :
    Except String (List ChrGroupL) :=
  match seenHaps scaffolds with
  | [] => .error "no haplotypes seen"
  | first :: _ =>
    match buildGroupsRaw scaffolds with
    | .error e => .error e
    | .ok groups =>
      if checkGroupsHasErrors first groups then .error "Error naming autosomes"
      else .ok groups


/-- The bookkeeping invariant of an `OverlapResult`: the span
`end - start + 1` equals the total length of its rows. -/
def OverlapResult.span_consistent (o : OverlapResult) : Prop :=
  o.stop - o.start + 1 = (o.rows.map Row.length).sum

/-!  Concrete test fixtures (used by the witness and counterexample
theorems below). -/

/-- Rows of a three-row scaffold: fragment (1-30), gap (31-40),
fragment (41-100). -/
def egRows2 : List Row :=
  [.frag ⟨"a", 1, 30, 1, []⟩, .gap ⟨10, "scaffold"⟩, .frag ⟨"b", 1, 60, 1, []⟩]

/-- An assembly holding `egRows2` under the name `s1`. -/
def egAsm2 : IndexedAssembly := ⟨[("s1", egRows2)]⟩

/-- A bait hitting the gap and the second fragment of `egRows2`. -/
def egBait2 : Fragment := ⟨"s1", 35, 50, 1, []⟩

/-- Rows whose tail is a gap (21-base scaffold: fragment 1-10, gap 11-20). -/
def egRows2g : List Row := [.frag ⟨"a", 1, 10, 1, []⟩, .gap ⟨10, "scaffold"⟩]

/-- An assembly holding `egRows2g` under the name `s`. -/
def egAsm2g : IndexedAssembly := ⟨[("s", egRows2g)]⟩

/-- A bait intersecting only the trailing gap of `egRows2g`. -/
def egBait2g : Fragment := ⟨"s", 15, 20, 1, []⟩

/-- A mixed-strand scaffold: `chr1` forward, `chr2` reverse. -/
def egS3mix : Scaffold :=
  ⟨"s3", [.frag ⟨"chr1", 1, 100, 1, []⟩, .frag ⟨"chr2", 1, 50, -1, []⟩],
    none, none, 0, none, []⟩

/-- A uniform-strand scaffold with the same intervals. -/
def egS3uni : Scaffold :=
  ⟨"s3", [.frag ⟨"chr1", 1, 100, 1, []⟩, .frag ⟨"chr2", 1, 50, 1, []⟩],
    none, none, 0, none, []⟩

/-- A fragment shared by two OverlapResults (C4 fixtures). -/
def egF4 : Fragment := ⟨"f", 1, 30, 1, []⟩

/-- An OverlapResult ending in `egF4` with end-row bait overlap 15. -/
def egO41 : OverlapResult :=
  ⟨⟨"s1", 101, 165, 1, []⟩, [.frag ⟨"a", 1, 50, 1, []⟩, .frag egF4], 101, 180⟩

/-- An OverlapResult starting with `egF4` with start-row bait overlap 15. -/
def egO42 : OverlapResult :=
  ⟨⟨"s2", 16, 70, 1, []⟩, [.frag egF4, .frag ⟨"c", 1, 40, 1, []⟩], 1, 70⟩

/-- The two-result store of the C4 fixtures. -/
def egSt4 : List OverlapResult := [egO41, egO42]

/-- The end-side premise on `egO41`. -/
def egP41 : OverhangPremise := ⟨0, egF4, .stop⟩

/-- The start-side premise on `egO42`. -/
def egP42 : OverhangPremise := ⟨1, egF4, .start⟩

/-- An OverlapResult whose long first row makes discarding it overshoot:
start overhang 49, first row length 200 (C5 counterexample fixture). -/
def egO5 : OverlapResult :=
  ⟨⟨"b", 50, 400, 1, []⟩,
    [.frag ⟨"f1", 1, 200, 1, []⟩, .frag ⟨"f2", 1, 40, 1, []⟩,
      .frag ⟨"f3", 1, 260, 1, []⟩], 1, 500⟩

/-- The one-result store of the C5 counterexample. -/
def egSt5 : List OverlapResult := [egO5]

/-- The start-side premise on `egO5` (bait overlap 151). -/
def egP51 : OverhangPremise := ⟨0, ⟨"f1", 1, 200, 1, []⟩, .start⟩

/-- The end-side premise on `egO5` (bait overlap 160). -/
def egP52 : OverhangPremise := ⟨0, ⟨"f3", 1, 260, 1, []⟩, .stop⟩

/-- An OverlapResult where discarding the first row improves the start
overhang from 49 to -1 (C5 witness fixture). -/
def egO5w : OverlapResult :=
  ⟨⟨"b", 50, 120, 1, []⟩,
    [.frag ⟨"g1", 1, 40, 1, []⟩, .gap ⟨10, "scaffold"⟩,
      .frag ⟨"g2", 1, 60, 1, []⟩], 1, 110⟩

/-- The one-result store of the C5 witness. -/
def egSt5w : List OverlapResult := [egO5w]

/-- The improving start-side premise on `egO5w`. -/
def egP5w1 : OverhangPremise := ⟨0, ⟨"g1", 1, 40, 1, []⟩, .start⟩

/-- The worsening end-side premise on `egO5w`. -/
def egP5w2 : OverhangPremise := ⟨0, ⟨"g2", 1, 60, 1, []⟩, .stop⟩

/-- A single-row OverlapResult whose row (length 5) is under the error
length but whose bait (length 19) is over it (C6 counterexample). -/
def egO6 : OverlapResult :=
  ⟨⟨"s", 12, 30, 1, []⟩, [.frag ⟨"f", 1, 5, 1, []⟩], 1, 5⟩

/-- A two-row OverlapResult with a large start overhang (C6 witness). -/
def egO6w : OverlapResult :=
  ⟨⟨"s", 62, 100, 1, []⟩,
    [.frag ⟨"a", 1, 50, 1, []⟩, .frag ⟨"b", 1, 50, 1, []⟩], 1, 100⟩

/-- What discarding the start of `egO6w` leaves. -/
def egO6w1 : OverlapResult :=
  ⟨⟨"s", 62, 100, 1, []⟩, [.frag ⟨"b", 1, 50, 1, []⟩], 51, 100⟩

/-- The input fragment cut in two by the C7 witness. -/
def egF7 : Fragment := ⟨"c", 1, 100, 1, []⟩

/-- The OverlapResult keeping the first 60 bases of `egF7`. -/
def egO71 : OverlapResult := ⟨⟨"s", 1, 60, 1, []⟩, [.frag egF7], 1, 100⟩

/-- The OverlapResult keeping the last 40 bases of `egF7`. -/
def egO72 : OverlapResult := ⟨⟨"s", 61, 100, 1, []⟩, [.frag egF7], 1, 100⟩

/-- The sub-fragments `cut_fragments` produces for `egF7`. -/
def egSubs7 : List Fragment :=
  [⟨"c", 1, 60, 1, ["Cut"]⟩, ⟨"c", 61, 100, 1, ["Cut"]⟩]

/-- The default gap of `BuildAssembly` (length 200, type scaffold). -/
def egDg8 : Gap := ⟨200, "scaffold"⟩

/-- Input rows whose middle fragment `b` goes missing (C8 fixture). -/
def egRows8 : List Row :=
  [.frag ⟨"a", 1, 10, 1, []⟩, .gap ⟨57, "contig"⟩, .frag ⟨"b", 1, 10, 1, []⟩,
    .gap ⟨99, "contig"⟩, .frag ⟨"c", 1, 10, 1, []⟩]

/-- The input scaffold of the C8 counterexample. -/
def egS8 : Scaffold := ⟨"s8", egRows8, none, none, 0, none, []⟩

/-- The found-fragments predicate of the C8 counterexample: only `b` was
placed by the curator. -/
def egFound8 : String × Int × Int → Bool := fun k => decide (k = ("b", 1, 10))

/-- First Hap1 scaffold of the C9 fixtures (original name `A`). -/
def egSA9 : Scaffold := ⟨"sA", [], none, some "Hap1", 0, some "A", []⟩

/-- Second Hap1 scaffold of the C9 fixtures (original name `B`). -/
def egSB9 : Scaffold := ⟨"sB", [], none, some "Hap1", 0, some "B", []⟩

/-- The Hap2 scaffold of the C9 fixtures (original name `C`). -/
def egSC9 : Scaffold := ⟨"sC", [], none, some "Hap2", 0, some "C", []⟩

/-- Painted scaffolds where Hap1 holds two consecutive original names. -/
def egScaffolds9 : List (Option String × Scaffold) :=
  [(some "Hap1", egSA9), (some "Hap1", egSB9), (some "Hap2", egSC9)]

/-- The single group `build_groups` makes of `egScaffolds9`: both `A` and
`B` land in its Hap1 slot. -/
def egGroup9 : ChrGroupL :=
  [(some "Hap1", [("A", [egSA9]), ("B", [egSB9])]),
    (some "Hap2", [("C", [egSC9])])]

/-! ### Prefix sums and the scaffold index -/

theorem lenSum_cons (r : Row) (t : List Row) (i : Nat) :
    lenSum (r :: t) (i + 1) = r.length + lenSum t i := by
  simp [lenSum, List.take]

theorem lenSum_succ (rows : List Row) (i : Nat) (h : i < rows.length) :
    lenSum rows (i + 1) = lenSum rows i + (rows.get ⟨i, h⟩).length := by
  have h' : i < (rows.map Row.length).length := by simpa using h
  unfold lenSum
  rw [List.map_take, List.map_take, List.sum_take_succ _ i h']
  simp

theorem lenSum_mono (rows : List Row) {i j : Nat}
    (hnn : ∀ r ∈ rows, 0 ≤ r.length) (hij : i ≤ j) :
    lenSum rows i ≤ lenSum rows j := by
  have h1 : rows.take j = rows.take i ++ (rows.take j).drop i := by
    conv_lhs => rw [← List.take_append_drop i (rows.take j)]
    rw [List.take_take, min_eq_left hij]
  have h2 : 0 ≤ (((rows.take j).drop i).map Row.length).sum := by
    apply List.sum_nonneg
    intro x hx
    obtain ⟨r, hr, rfl⟩ := List.mem_map.mp hx
    exact hnn r (List.mem_of_mem_take (List.mem_of_mem_drop hr))
  unfold lenSum
  rw [h1]
  simp only [List.map_append, List.sum_append]
  omega

theorem lenSum_lt (rows : List Row) {i j : Nat}
    (hpos : ∀ r ∈ rows, 1 ≤ r.length) (hij : i < j) (hj : j ≤ rows.length) :
    lenSum rows i < lenSum rows j := by
  have hnn : ∀ r ∈ rows, 0 ≤ r.length := fun r hr => le_trans (by omega) (hpos r hr)
  have hi : i < rows.length := lt_of_lt_of_le hij hj
  have h1 := lenSum_succ rows i hi
  have h2 := hpos _ (rows.get_mem i hi)
  have h3 := lenSum_mono rows hnn (show i + 1 ≤ j from hij)
  omega

theorem overlapIndexFrom_length (acc : Int) (rows : List Row) :
    (overlapIndexFrom acc rows).length = rows.length := by
  induction rows generalizing acc with
  | nil => rfl
  | cons r t ih => simp [overlapIndexFrom, ih]

theorem overlapIndexFrom_get? (rows : List Row) :
    ∀ (acc : Int) (i : Nat), i < rows.length →
      (overlapIndexFrom acc rows)[i]? = some (acc + lenSum rows (i + 1)) := by
  induction rows with
  | nil => intro acc i hi; simp at hi
  | cons r t ih =>
    intro acc i hi
    cases i with
    | zero =>
      simp [overlapIndexFrom, lenSum, List.take]
    | succ i =>
      simp only [overlapIndexFrom, List.getElem?_cons_succ]
      rw [ih (acc + r.length) i (by simpa using hi), lenSum_cons]
      congr 1
      ring

theorem overlapIndex_get? (rows : List Row) (i : Nat) (h : i < rows.length) :
    (overlapIndex rows)[i]? = some (lenSum rows (i + 1)) := by
  have := overlapIndexFrom_get? rows 0 i h
  simpa [overlapIndex] using this

theorem overlapIndex_length (rows : List Row) :
    (overlapIndex rows).length = rows.length :=
  overlapIndexFrom_length 0 rows

theorem idxEndPos_eq (rows : List Row) (i : Nat) (h : i < rows.length) :
    idxEndPos (overlapIndex rows) i = rowEndPos rows i := by
  simp [idxEndPos, rowEndPos, List.getD, overlapIndex_get? rows i h]

theorem idxStartPos_eq (rows : List Row) (i : Nat) (h : i < rows.length) :
    idxStartPos (overlapIndex rows) i = rowStartPos rows i := by
  unfold idxStartPos rowStartPos
  rcases Nat.eq_zero_or_pos i with h0 | h0
  · simp [h0, lenSum]
  · have h1 : i - 1 < rows.length := by omega
    rw [if_neg (by omega)]
    simp [List.getD, overlapIndex_get? rows (i - 1) h1]
    have : i - 1 + 1 = i := by omega
    rw [this]

/-! ### The binary search and extension loops of `find_overlaps` -/

theorem binSearch_sound (idx : List Int) (s e : Int) :
    ∀ (k a z m : Nat), z - a ≤ k → binSearch idx s e k a z = some m →
      a ≤ m ∧ m < z ∧ s ≤ idxEndPos idx m ∧ idxStartPos idx m ≤ e := by
  intro k
  induction k with
  | zero =>
    intro a z m hk hbs
    cases hbs
  | succ k ih =>
    intro a z m hk hbs
    rw [binSearch] at hbs
    by_cases haz : a < z
    · rw [if_pos haz] at hbs
      by_cases h1 : idxEndPos idx (a + (z - a) / 2) < s
      · rw [if_pos h1] at hbs
        have h2 := ih (a + (z - a) / 2 + 1) z m (by omega) hbs
        exact ⟨by omega, h2.2.1, h2.2.2⟩
      · rw [if_neg h1] at hbs
        by_cases h2 : e < idxStartPos idx (a + (z - a) / 2)
        · rw [if_pos h2] at hbs
          have h3 := ih a (a + (z - a) / 2) m (by omega) hbs
          exact ⟨h3.1, by omega, h3.2.2⟩
        · rw [if_neg h2, Option.some_inj] at hbs
          subst hbs
          exact ⟨by omega, by omega, by omega, by omega⟩
    · rw [if_neg haz] at hbs
      cases hbs

theorem binSearch_none (idx : List Int) (s e : Int)
    (hmono1 : ∀ i j : Nat, i ≤ j → j < idx.length →
      idxEndPos idx i ≤ idxEndPos idx j)
    (hmono2 : ∀ i j : Nat, i ≤ j → j < idx.length →
      idxStartPos idx i ≤ idxStartPos idx j) :
    ∀ (k a z : Nat), z - a ≤ k → z ≤ idx.length →
      binSearch idx s e k a z = none →
      ∀ i, a ≤ i → i < z → idxEndPos idx i < s ∨ e < idxStartPos idx i := by
  intro k
  induction k with
  | zero =>
    intro a z hk hz hbs i hai hiz
    omega
  | succ k ih =>
    intro a z hk hz hbs i hai hiz
    rw [binSearch] at hbs
    by_cases haz : a < z
    · rw [if_pos haz] at hbs
      by_cases h1 : idxEndPos idx (a + (z - a) / 2) < s
      · rw [if_pos h1] at hbs
        by_cases hi : a + (z - a) / 2 + 1 ≤ i
        · exact ih (a + (z - a) / 2 + 1) z (by omega) hz hbs i hi hiz
        · left
          have := hmono1 i (a + (z - a) / 2) (by omega) (by omega)
          omega
      · rw [if_neg h1] at hbs
        by_cases h2 : e < idxStartPos idx (a + (z - a) / 2)
        · rw [if_pos h2] at hbs
          by_cases hi : i < a + (z - a) / 2
          · exact ih a (a + (z - a) / 2) (by omega) (by omega) hbs i hai hi
          · right
            have := hmono2 (a + (z - a) / 2) i (by omega) (by omega)
            omega
        · rw [if_neg h2] at hbs
          cases hbs
    · omega

theorem extendLeft_le (idx : List Int) (s : Int) : ∀ i, extendLeft idx s i ≤ i := by
  intro i
  induction i with
  | zero => simp [extendLeft]
  | succ i ih =>
    rw [extendLeft]
    split
    · omega
    · omega

theorem extendLeft_tests (idx : List Int) (s : Int) :
    ∀ i k, extendLeft idx s i ≤ k → k < i → s ≤ idxEndPos idx k := by
  intro i
  induction i with
  | zero => intro k h1 h2; omega
  | succ i ih =>
    intro k h1 h2
    rw [extendLeft] at h1
    by_cases ht : s ≤ idxEndPos idx i
    · rw [if_pos ht] at h1
      by_cases hk : k < i
      · exact ih k h1 hk
      · have : k = i := by omega
        subst this
        exact ht
    · rw [if_neg ht] at h1
      omega

theorem extendLeft_stop (idx : List Int) (s : Int) :
    ∀ i, extendLeft idx s i = 0 ∨
      idxEndPos idx (extendLeft idx s i - 1) < s := by
  intro i
  induction i with
  | zero => left; rfl
  | succ i ih =>
    rw [extendLeft]
    by_cases ht : s ≤ idxEndPos idx i
    · rw [if_pos ht]
      exact ih
    · rw [if_neg ht]
      right
      simpa using ht

theorem extendRight_spec (idx : List Int) (e : Int) :
    ∀ (k j : Nat), idx.length - j ≤ k →
      j ≤ extendRight idx e k j ∧
      (∀ t, j < t → t ≤ extendRight idx e k j → idxStartPos idx t ≤ e) ∧
      (idx.length ≤ extendRight idx e k j + 1 ∨
        e < idxStartPos idx (extendRight idx e k j + 1)) := by
  intro k
  induction k with
  | zero =>
    intro j hk
    rw [extendRight]
    exact ⟨le_refl j, fun t h1 h2 => by omega, by omega⟩
  | succ k ih =>
    intro j hk
    rw [extendRight]
    by_cases hj : j + 1 < idx.length
    · rw [if_pos hj]
      by_cases ht : idxStartPos idx (j + 1) ≤ e
      · rw [if_pos ht]
        obtain ⟨ha, hb, hc⟩ := ih (j + 1) (by omega)
        refine ⟨by omega, fun t h1 h2 => ?_, hc⟩
        by_cases h3 : j + 1 < t
        · exact hb t h3 h2
        · have : t = j + 1 := by omega
          subst this
          exact ht
      · rw [if_neg ht]
        exact ⟨le_refl j, fun t h1 h2 => by omega, Or.inr (by omega)⟩
    · rw [if_neg hj]
      exact ⟨le_refl j, fun t h1 h2 => by omega, Or.inl (by omega)⟩

theorem extendRight_lt_length (idx : List Int) (e : Int) :
    ∀ (k j : Nat), idx.length - j ≤ k → j < idx.length →
      extendRight idx e k j < idx.length := by
  intro k
  induction k with
  | zero =>
    intro j hk hj
    rw [extendRight]
    exact hj
  | succ k ih =>
    intro j hk hj
    rw [extendRight]
    by_cases h1 : j + 1 < idx.length
    · rw [if_pos h1]
      by_cases ht : idxStartPos idx (j + 1) ≤ e
      · rw [if_pos ht]
        exact ih (j + 1) (by omega) h1
      · rw [if_neg ht]
        exact hj
    · rw [if_neg h1]
      exact hj

/-! ### The terminal-Gap walks of `find_overlaps` -/

theorem rowAt_eq_getElem (rows : List Row) (i : Nat) (h : i < rows.length) :
    rowAt rows i = rows[i] := by
  simp [rowAt, List.getD, List.getElem?_eq_getElem h]

theorem firstFragIdx_some (rows : List Row) :
    ∀ (k i i1 : Nat), rows.length - i < k → firstFragIdx rows k i = some i1 →
      i ≤ i1 ∧ i1 < rows.length ∧ (rowAt rows i1).isGap = false ∧
        ∀ t, i ≤ t → t < i1 → (rowAt rows t).isGap = true := by
  intro k
  induction k with
  | zero =>
    intro i i1 hk hf
    cases hf
  | succ k ih =>
    intro i i1 hk hf
    rw [firstFragIdx] at hf
    by_cases hi : i < rows.length
    · rw [dif_pos hi] at hf
      by_cases hg : (rows.get ⟨i, hi⟩).isGap
      · rw [if_pos hg] at hf
        obtain ⟨ha, hb, hc, hd⟩ := ih (i + 1) i1 (by omega) hf
        refine ⟨by omega, hb, hc, fun t h1 h2 => ?_⟩
        by_cases h3 : i + 1 ≤ t
        · exact hd t h3 h2
        · have ht : t = i := by omega
          rw [ht]
          simpa [rowAt_eq_getElem rows i hi] using hg
      · rw [if_neg hg, Option.some_inj] at hf
        subst hf
        refine ⟨le_refl i, hi, ?_, fun t h1 h2 => by omega⟩
        simpa [rowAt_eq_getElem rows i hi] using hg
    · rw [dif_neg hi] at hf
      cases hf

theorem firstFragIdx_none (rows : List Row) :
    ∀ (k i : Nat), rows.length - i < k → firstFragIdx rows k i = none →
      ∀ t, i ≤ t → t < rows.length → (rowAt rows t).isGap = true := by
  intro k
  induction k with
  | zero =>
    intro i hk hf t h1 h2
    omega
  | succ k ih =>
    intro i hk hf t h1 h2
    rw [firstFragIdx] at hf
    by_cases hi : i < rows.length
    · rw [dif_pos hi] at hf
      by_cases hg : (rows.get ⟨i, hi⟩).isGap
      · rw [if_pos hg] at hf
        by_cases h3 : i + 1 ≤ t
        · exact ih (i + 1) (by omega) hf t h3 h2
        · have ht : t = i := by omega
          rw [ht]
          simpa [rowAt_eq_getElem rows i hi] using hg
      · rw [if_neg hg] at hf
        cases hf
    · omega

theorem pyGet_eq (rows : List Row) (j : Int)
    (h1 : -(rows.length : Int) ≤ j) (h2 : j < rows.length) :
    pyGet rows j = some (rowAt rows (pyIdx rows j)) := by
  unfold pyGet pyIdx
  by_cases h0 : 0 ≤ j
  · rw [if_pos h0, if_pos h0]
    have hlt : j.toNat < rows.length := by omega
    simp [rowAt_eq_getElem rows _ hlt, List.get?_eq_getElem?, List.getElem?_eq_getElem hlt]
  · rw [if_neg h0, if_pos h1, if_neg h0]
    have hlt : ((rows.length : Int) + j).toNat < rows.length := by omega
    simp [rowAt_eq_getElem rows _ hlt, List.get?_eq_getElem?, List.getElem?_eq_getElem hlt]

theorem backWalk_stops (rows : List Row) :
    ∀ (fuel : Nat) (j j1 : Int), -(rows.length : Int) ≤ j1 → j1 ≤ j →
      j < rows.length → (j - j1).toNat + 1 ≤ fuel →
      (rowAt rows (pyIdx rows j1)).isGap = false →
      (∀ t : Int, j1 < t → t ≤ j → (rowAt rows (pyIdx rows t)).isGap = true) →
      backWalk rows fuel j = some j1 := by
  intro fuel
  induction fuel with
  | zero =>
    intro j j1 h1 h2 h3 h4 h5 h6
    omega
  | succ fuel ih =>
    intro j j1 h1 h2 h3 h4 h5 h6
    rw [backWalk]
    rw [pyGet_eq rows j (by omega) h3]
    by_cases hj : j = j1
    · subst hj
      simp [h5]
    · have hgap := h6 j (by omega) (le_refl j)
      simp only [hgap, if_pos]
      have := ih (j - 1) j1 h1 (by omega) (by omega) (by omega) h5
        (fun t ht1 ht2 => h6 t ht1 (by omega))
      simpa using this

theorem Row.isGap_eq_not_isFrag (r : Row) : r.isGap = !r.isFrag := by
  cases r <;> rfl

theorem greatestFragBelow (rows : List Row) :
    ∀ j, (∃ k, k ≤ j ∧ (rowAt rows k).isFrag = true) →
      ∃ g, g ≤ j ∧ (rowAt rows g).isFrag = true ∧
        ∀ t, g < t → t ≤ j → (rowAt rows t).isGap = true := by
  intro j
  induction j with
  | zero =>
    rintro ⟨k, hk, hf⟩
    have : k = 0 := by omega
    subst this
    exact ⟨0, le_refl 0, hf, fun t h1 h2 => by omega⟩
  | succ j ih =>
    rintro ⟨k, hk, hf⟩
    by_cases hj : (rowAt rows (j + 1)).isFrag = true
    · exact ⟨j + 1, le_refl _, hj, fun t h1 h2 => by omega⟩
    · have hk' : k ≤ j := by
        rcases Nat.lt_or_ge k (j + 1) with h | h
        · omega
        · exfalso; apply hj; have : k = j + 1 := by omega
          rw [← this]; exact hf
      obtain ⟨g, h1, h2, h3⟩ := ih ⟨k, hk', hf⟩
      refine ⟨g, by omega, h2, fun t ht1 ht2 => ?_⟩
      by_cases ht3 : t ≤ j
      · exact h3 t ht1 ht3
      · have : t = j + 1 := by omega
        rw [this, Row.isGap_eq_not_isFrag]
        simpa using hj

theorem pyIdx_ofNat (rows : List Row) (k : Nat) : pyIdx rows (k : Int) = k := by
  simp [pyIdx]

theorem pyIdx_neg (rows : List Row) (g : Nat) (h : g < rows.length) :
    pyIdx rows ((g : Int) - (rows.length : Int)) = g := by
  unfold pyIdx
  rw [if_neg (by omega)]
  omega

theorem filter_range_head (p : Nat → Bool) (n i : Nat) (hi : i < n)
    (hp : p i = true) (hlt : ∀ t, t < i → p t = false) :
    ((List.range n).filter p).head? = some i := by
  obtain ⟨d, rfl⟩ : ∃ d, n = i + (d + 1) := ⟨n - i - 1, by omega⟩
  rw [List.range_add, List.filter_append]
  have h1 : (List.range i).filter p = [] := by
    apply List.filter_eq_nil_iff.mpr
    intro a ha
    simp [hlt a (List.mem_range.mp ha)]
  rw [h1, List.nil_append]
  rw [List.range_succ_eq_map]
  simp only [List.map_cons, List.filter_cons]
  simp [hp]

theorem filter_range_getLast (p : Nat → Bool) (n j : Nat) (hj : j < n)
    (hp : p j = true) (hgt : ∀ t, j < t → t < n → p t = false) :
    ((List.range n).filter p).getLast? = some j := by
  obtain ⟨d, rfl⟩ : ∃ d, n = (j + 1) + d := ⟨n - (j + 1), by omega⟩
  rw [List.range_add, List.filter_append]
  have h1 : ((List.range d).map (fun x => j + 1 + x)).filter p = [] := by
    apply List.filter_eq_nil_iff.mpr
    intro a ha
    obtain ⟨x, hx, rfl⟩ := List.mem_map.mp ha
    simp [hgt (j + 1 + x) (by omega) (by have := List.mem_range.mp hx; omega)]
  rw [h1, List.append_nil]
  rw [List.range_succ, List.filter_append]
  simp only [List.filter_cons, List.filter_nil]
  rw [List.getLast?_append]
  simp [hp]

theorem rowIntersects_iff (rows : List Row) (s e : Int) (i : Nat) :
    rowIntersects rows s e i = true ↔
      1 + lenSum rows i ≤ e ∧ s ≤ lenSum rows (i + 1) := by
  simp [rowIntersects, rowStartPos, rowEndPos]

theorem idx_mono_end (rows : List Row) (hpos : ∀ r ∈ rows, 1 ≤ r.length) :
    ∀ i j : Nat, i ≤ j → j < (overlapIndex rows).length →
      idxEndPos (overlapIndex rows) i ≤ idxEndPos (overlapIndex rows) j := by
  intro i j hij hj
  rw [overlapIndex_length] at hj
  rw [idxEndPos_eq rows i (by omega), idxEndPos_eq rows j hj]
  unfold rowEndPos
  exact lenSum_mono rows (fun r hr => by have := hpos r hr; omega) (by omega)

theorem idx_mono_start (rows : List Row) (hpos : ∀ r ∈ rows, 1 ≤ r.length) :
    ∀ i j : Nat, i ≤ j → j < (overlapIndex rows).length →
      idxStartPos (overlapIndex rows) i ≤ idxStartPos (overlapIndex rows) j := by
  intro i j hij hj
  rw [overlapIndex_length] at hj
  rw [idxStartPos_eq rows i (by omega), idxStartPos_eq rows j hj]
  unfold rowStartPos
  have := lenSum_mono rows (fun r hr => by have := hpos r hr; omega) hij
  omega

theorem binSearch_none_no_intersect (rows : List Row) (s e : Int)
    (hpos : ∀ r ∈ rows, 1 ≤ r.length)
    (hbs : binSearch (overlapIndex rows) s e ((overlapIndex rows).length + 1)
      0 (overlapIndex rows).length = none) :
    ∀ i, i < rows.length → rowIntersects rows s e i = false := by
  intro i hi
  have h := binSearch_none (overlapIndex rows) s e
    (idx_mono_end rows hpos) (idx_mono_start rows hpos)
    ((overlapIndex rows).length + 1) 0 (overlapIndex rows).length (by omega) (le_refl _)
    hbs i (by omega) (by rw [overlapIndex_length]; exact hi)
  rw [idxEndPos_eq rows i hi, idxStartPos_eq rows i hi] at h
  unfold rowEndPos rowStartPos at h
  rw [Bool.eq_false_iff]
  intro hcon
  rw [rowIntersects_iff] at hcon
  omega

theorem overlapRange_spec (rows : List Row) (s e : Int)
    (hpos : ∀ r ∈ rows, 1 ≤ r.length) (ovr iLo jHi : Nat)
    (hbs : binSearch (overlapIndex rows) s e ((overlapIndex rows).length + 1)
      0 (overlapIndex rows).length = some ovr)
    (hiLo : iLo = extendLeft (overlapIndex rows) s ovr)
    (hjHi : jHi = extendRight (overlapIndex rows) e ((overlapIndex rows).length + 1) ovr) :
    iLo ≤ ovr ∧ ovr ≤ jHi ∧ jHi < rows.length ∧
      ∀ i, i < rows.length →
        (rowIntersects rows s e i = true ↔ (iLo ≤ i ∧ i ≤ jHi)) := by
  have hnn : ∀ r ∈ rows, 0 ≤ r.length := fun r hr => by have := hpos r hr; omega
  obtain ⟨-, hovr, hsnd1, hsnd2⟩ :=
    binSearch_sound (overlapIndex rows) s e ((overlapIndex rows).length + 1)
      0 (overlapIndex rows).length ovr (by omega) hbs
  rw [overlapIndex_length] at hovr
  rw [idxEndPos_eq rows ovr hovr] at hsnd1
  rw [idxStartPos_eq rows ovr hovr] at hsnd2
  unfold rowEndPos at hsnd1
  unfold rowStartPos at hsnd2
  have hle : iLo ≤ ovr := hiLo ▸ extendLeft_le (overlapIndex rows) s ovr
  obtain ⟨hre, hrt, hrs⟩ :=
    extendRight_spec (overlapIndex rows) e ((overlapIndex rows).length + 1) ovr (by omega)
  rw [← hjHi] at hre hrt hrs
  have hjn : jHi < rows.length := by
    have := extendRight_lt_length (overlapIndex rows) e ((overlapIndex rows).length + 1) ovr
      (by omega) (by rw [overlapIndex_length]; exact hovr)
    rw [← hjHi, overlapIndex_length] at this
    exact this
  refine ⟨hle, hre, hjn, fun i hi => ?_⟩
  rw [rowIntersects_iff]
  constructor
  · rintro ⟨hI1, hI2⟩
    constructor
    · by_contra hc
      push_neg at hc
      rcases (hiLo ▸ extendLeft_stop (overlapIndex rows) s ovr : _ ∨ _) with h0 | h0
      · omega
      · have h1 : iLo - 1 < rows.length := by omega
        rw [idxEndPos_eq rows (iLo - 1) h1] at h0
        unfold rowEndPos at h0
        have h2 : iLo - 1 + 1 = iLo := by omega
        rw [h2] at h0
        have := lenSum_mono rows hnn (show i + 1 ≤ iLo by omega)
        omega
    · by_contra hc
      push_neg at hc
      rcases hrs with h0 | h0
      · rw [overlapIndex_length] at h0
        omega
      · have h1 : jHi + 1 < rows.length := by
          by_contra h2
          rw [overlapIndex_length] at *
          -- idxStartPos out of range would contradict via the first disjunct
          push_neg at h2
          -- jHi + 1 ≥ rows.length; but also jHi + 1 ≤ i ≤ rows.length - 1
          omega
        rw [idxStartPos_eq rows (jHi + 1) h1] at h0
        unfold rowStartPos at h0
        have := lenSum_mono rows hnn (show jHi + 1 ≤ i by omega)
        omega
  · rintro ⟨h1, h2⟩
    constructor
    · -- 1 + lenSum i ≤ e
      by_cases hio : i ≤ ovr
      · have := lenSum_mono rows hnn hio
        omega
      · have ht := hrt i (by omega) h2
        have h3 : 0 < i := by omega
        rw [idxStartPos_eq rows i (by omega)] at ht
        unfold rowStartPos at ht
        omega
    · -- s ≤ lenSum (i+1)
      by_cases hio : ovr ≤ i
      · have := lenSum_mono rows hnn (show ovr + 1 ≤ i + 1 by omega)
        omega
      · have ht := extendLeft_tests (overlapIndex rows) s ovr i (by rw [← hiLo]; omega) (by omega)
        rw [idxEndPos_eq rows i (by omega)] at ht
        unfold rowEndPos at ht
        exact ht

theorem find_overlaps_matches_spec
    (asm : IndexedAssembly) (bait : Fragment) (rows : List Row)
    (hlk : asm.scaffold_by_name bait.name = some rows)
    (hne : rows ≠ [])
    (hpos : ∀ r ∈ rows, 1 ≤ r.length)
    (hsafe :
      (∀ i, i < rows.length → rowIntersects rows bait.start bait.stop i = false) ∨
      (∃ k, k < rows.length ∧ (rowAt rows k).isFrag = true ∧
        ∃ i, i ≤ k ∧ rowIntersects rows bait.start bait.stop i = true)) :
    asm.find_overlaps bait = .ok (specFindOverlaps rows bait) := by
  have hemp : rows.isEmpty = false := by
    cases rows with
    | nil => exact absurd rfl hne
    | cons a t => rfl
  simp only [IndexedAssembly.find_overlaps, hlk, hemp, Bool.false_eq_true, if_false]
  cases hbs : binSearch (overlapIndex rows) bait.start bait.stop ((overlapIndex rows).length + 1) 0 (overlapIndex rows).length with
  | none =>
    have hni := binSearch_none_no_intersect rows bait.start bait.stop hpos hbs
    have hI : fragIntersecting rows bait.start bait.stop = [] := by
      unfold fragIntersecting
      apply List.filter_eq_nil_iff.mpr
      intro a ha
      simp [hni a (List.mem_range.mp ha)]
    unfold specFindOverlaps
    rw [hI]
    rfl
  | some ovr =>
    dsimp only
    obtain ⟨hle, hre, hjn, hiff⟩ := overlapRange_spec rows bait.start bait.stop hpos ovr
      (extendLeft (overlapIndex rows) bait.start ovr)
      (extendRight (overlapIndex rows) bait.stop ((overlapIndex rows).length + 1) ovr)
      hbs rfl rfl
    set iLo := extendLeft (overlapIndex rows) bait.start ovr with hiLo
    set jHi := extendRight (overlapIndex rows) bait.stop ((overlapIndex rows).length + 1) ovr with hjHi
    have hovr : ovr < rows.length := by omega
    have hIovr : rowIntersects rows bait.start bait.stop ovr = true :=
      (hiff ovr hovr).mpr ⟨hle, hre⟩
    cases hff : firstFragIdx rows (rows.length + 1) iLo with
    | none =>
      exfalso
      rcases hsafe with hs | ⟨k, hk1, hk2, i, hi1, hi2⟩
      · rw [hs ovr hovr] at hIovr
        cases hIovr
      · have hik : iLo ≤ i := ((hiff i (by omega)).mp hi2).1
        have := firstFragIdx_none rows (rows.length + 1) iLo (by omega) hff k (by omega) hk1
        rw [Row.isGap_eq_not_isFrag, hk2] at this
        cases this
    | some i1 =>
      obtain ⟨hi1a, hi1b, hi1c, hi1d⟩ :=
        firstFragIdx_some rows (rows.length + 1) iLo i1 (by omega) hff
      have hi1f : (rowAt rows i1).isFrag = true := by
        rw [Row.isGap_eq_not_isFrag] at hi1c
        simpa using hi1c
      by_cases hAB : ∃ k, iLo ≤ k ∧ k ≤ jHi ∧ (rowAt rows k).isFrag = true
      · -- an intersecting Fragment exists: the search returns the trimmed slice
        obtain ⟨k, hk1, hk2, hk3⟩ := hAB
        have hi1jHi : i1 ≤ k := by
          by_contra hc
          have := hi1d k hk1 (by omega)
          rw [Row.isGap_eq_not_isFrag, hk3] at this
          cases this
        obtain ⟨g, hg1, hg2, hg3⟩ := greatestFragBelow rows jHi ⟨k, hk2, hk3⟩
        have hgn : g < rows.length := by omega
        have hi1g : i1 ≤ g := by
          by_contra hc
          have := hg3 i1 (by omega) (by omega)
          rw [Row.isGap_eq_not_isFrag, hi1f] at this
          cases this
        have hbw : backWalk rows (2 * rows.length + 2) (jHi : Int) = some (g : Int) := by
          apply backWalk_stops rows (2 * rows.length + 2) (jHi : Int) (g : Int)
            (by omega) (by exact_mod_cast hg1) (by exact_mod_cast hjn) (by omega)
          · rw [pyIdx_ofNat, Row.isGap_eq_not_isFrag, hg2]
            rfl
          · intro t ht1 ht2
            have ht0 : 0 ≤ t := by omega
            have htn : pyIdx rows t = t.toNat := by
              unfold pyIdx
              rw [if_pos ht0]
            rw [htn]
            exact hg3 t.toNat (by omega) (by omega)
        dsimp only
        rw [hbw]
        dsimp only
        rw [if_pos (by exact_mod_cast hi1g)]
        have hHead : (fragIntersecting rows bait.start bait.stop).head? = some i1 := by
          apply filter_range_head _ _ _ hi1b
          · simp only [Bool.and_eq_true]
            exact ⟨hi1f, (hiff i1 hi1b).mpr ⟨hi1a, by omega⟩⟩
          · intro t ht
            by_cases htlo : t < iLo
            · have hci : rowIntersects rows bait.start bait.stop t = false := by
                rw [Bool.eq_false_iff]
                intro hc
                have := (hiff t (by omega)).mp hc
                omega
              simp [hci]
            · have hcf : (rowAt rows t).isFrag = false := by
                have := hi1d t (by omega) ht
                rw [Row.isGap_eq_not_isFrag] at this
                simpa using this
              simp [hcf]
        have hLast : (fragIntersecting rows bait.start bait.stop).getLast? = some g := by
          apply filter_range_getLast _ _ _ hgn
          · simp only [Bool.and_eq_true]
            exact ⟨hg2, (hiff g hgn).mpr ⟨by omega, hg1⟩⟩
          · intro t ht1 ht2
            by_cases hthi : t ≤ jHi
            · have hcf : (rowAt rows t).isFrag = false := by
                have := hg3 t ht1 hthi
                rw [Row.isGap_eq_not_isFrag] at this
                simpa using this
              simp [hcf]
            · have hci : rowIntersects rows bait.start bait.stop t = false := by
                rw [Bool.eq_false_iff]
                intro hc
                have := (hiff t ht2).mp hc
                omega
              simp [hci]
        unfold specFindOverlaps
        rw [hHead, hLast]
        dsimp only
        have hg' : (g : Int).toNat = g := Int.toNat_ofNat g
        rw [hg', idxStartPos_eq rows i1 hi1b, idxEndPos_eq rows g hgn]
      · -- no intersecting Fragment: both sides are null
        have hspec : specFindOverlaps rows bait = none := by
          have hI : fragIntersecting rows bait.start bait.stop = [] := by
            unfold fragIntersecting
            apply List.filter_eq_nil_iff.mpr
            intro a ha
            have han : a < rows.length := List.mem_range.mp ha
            simp only [Bool.and_eq_true, not_and]
            intro haf hai
            exact hAB ⟨a, ((hiff a han).mp hai).1, ((hiff a han).mp hai).2, haf⟩
          unfold specFindOverlaps
          rw [hI]
          rfl
        rw [hspec]
        have hi1hi : jHi < i1 := by
          by_contra hc
          exact hAB ⟨i1, hi1a, by omega, hi1f⟩
        by_cases hfb : ∃ k, k ≤ jHi ∧ (rowAt rows k).isFrag = true
        · obtain ⟨g, hg1, hg2, hg3⟩ := greatestFragBelow rows jHi hfb
          have hgn : g < rows.length := by omega
          have hbw : backWalk rows (2 * rows.length + 2) (jHi : Int) = some (g : Int) := by
            apply backWalk_stops rows (2 * rows.length + 2) (jHi : Int) (g : Int)
              (by omega) (by exact_mod_cast hg1) (by exact_mod_cast hjn) (by omega)
            · rw [pyIdx_ofNat, Row.isGap_eq_not_isFrag, hg2]
              rfl
            · intro t ht1 ht2
              have ht0 : 0 ≤ t := by omega
              have htn : pyIdx rows t = t.toNat := by
                unfold pyIdx
                rw [if_pos ht0]
              rw [htn]
              exact hg3 t.toNat (by omega) (by omega)
          dsimp only
          rw [hbw]
          dsimp only
          have hgi1 : g < i1 := by
            by_contra hc
            -- g would be an intersecting fragment at or after iLo … g ≤ jHi < i1 ≤ g
            omega
          rw [if_neg (by exact_mod_cast (by omega : ¬ (i1 : Int) ≤ (g : Int)))]
        · push_neg at hfb
          obtain ⟨gmax, hm1, hm2, hm3⟩ :=
            greatestFragBelow rows (rows.length - 1) ⟨i1, by omega, hi1f⟩
          have hbw : backWalk rows (2 * rows.length + 2) (jHi : Int) =
              some ((gmax : Int) - (rows.length : Int)) := by
            apply backWalk_stops rows (2 * rows.length + 2) (jHi : Int)
              ((gmax : Int) - (rows.length : Int))
              (by omega) (by omega) (by exact_mod_cast hjn) (by omega)
            · rw [pyIdx_neg rows gmax (by omega), Row.isGap_eq_not_isFrag, hm2]
              rfl
            · intro t ht1 ht2
              by_cases ht0 : 0 ≤ t
              · have htn : pyIdx rows t = t.toNat := by
                  unfold pyIdx
                  rw [if_pos ht0]
                rw [htn, Row.isGap_eq_not_isFrag]
                have := hfb t.toNat (by omega)
                simp [this]
              · have htn : pyIdx rows t = ((rows.length : Int) + t).toNat := by
                  unfold pyIdx
                  rw [if_neg ht0]
                rw [htn]
                exact hm3 ((rows.length : Int) + t).toNat (by omega) (by omega)
          dsimp only
          rw [hbw]
          dsimp only
          rw [if_neg (by omega : ¬ (i1 : Int) ≤ (gmax : Int) - (rows.length : Int))]

/-! ### The span invariant (C10) -/

theorem dropLeadingGaps_sum (l : List Row) :
    (((dropLeadingGaps l).1.map Row.length).sum + (dropLeadingGaps l).2 =
      (l.map Row.length).sum) ∧
    ((dropLeadingGaps l).1.length ≤ l.length) := by
  induction l with
  | nil => simp [dropLeadingGaps]
  | cons r t ih =>
    cases r with
    | frag f => simp [dropLeadingGaps]
    | gap g =>
      rw [dropLeadingGaps]
      constructor
      · have := ih.1
        simp only [List.map_cons, List.sum_cons, Row.length]
        omega
      · have := ih.2
        simp only [List.length_cons]
        omega

theorem discard_start_span (o : OverlapResult) (hne : o.rows ≠ [])
    (hsp : o.span_consistent) : o.discard_start.span_consistent := by
  unfold OverlapResult.span_consistent at *
  unfold OverlapResult.discard_start
  cases hr : o.rows with
  | nil => exact absurd hr hne
  | cons r rest =>
    have hs := (dropLeadingGaps_sum rest).1
    rw [hr] at hsp
    simp only [List.map_cons, List.sum_cons] at hsp
    dsimp only
    omega

theorem discard_end_span (o : OverlapResult) (hne : o.rows ≠ [])
    (hsp : o.span_consistent) : o.discard_end.span_consistent := by
  unfold OverlapResult.span_consistent at *
  unfold OverlapResult.discard_end
  cases hr : o.rows.reverse with
  | nil =>
    rw [List.reverse_eq_nil_iff] at hr
    exact absurd hr hne
  | cons r rest =>
    have hs := (dropLeadingGaps_sum rest).1
    have hrows : o.rows = (r :: rest).reverse := by
      rw [← hr, List.reverse_reverse]
    rw [hrows] at hsp
    simp only [List.reverse_cons, List.map_append, List.map_reverse, List.sum_append,
      List.sum_reverse, List.map_cons, List.sum_cons, List.sum_nil, List.map_nil] at hsp
    dsimp only
    simp only [List.map_reverse, List.sum_reverse]
    omega

theorem head?_frag_sum (o : OverlapResult) (trim : Fragment)
    (hA : o.rows.head? = some (Row.frag trim)) :
    (o.rows.map Row.length).sum = trim.length + ((o.rows.tail).map Row.length).sum := by
  cases hr : o.rows with
  | nil => rw [hr] at hA; cases hA
  | cons r rest =>
    rw [hr] at hA
    simp only [List.head?_cons, Option.some_inj] at hA
    subst hA
    simp [Row.length]

theorem getLast?_frag_sum (o : OverlapResult) (trim : Fragment)
    (hE : o.rows.getLast? = some (Row.frag trim)) :
    (o.rows.map Row.length).sum = ((o.rows.dropLast).map Row.length).sum + trim.length := by
  have hne : o.rows ≠ [] := by
    intro hc
    rw [hc] at hE
    cases hE
  have h1 : o.rows.dropLast ++ [o.rows.getLast hne] = o.rows :=
    List.dropLast_append_getLast hne
  have h2 : o.rows.getLast hne = Row.frag trim := by
    have := List.getLast?_eq_getLast o.rows hne
    rw [this] at hE
    exact Option.some_inj.mp hE
  conv_lhs => rw [← h1]
  rw [h2]
  simp [Row.length]

set_option maxHeartbeats 2000000 in
theorem trim_fragment_ok_span (o : OverlapResult) (trim : Fragment) (ks ke : Bool)
    (o' : OverlapResult) (f : Fragment)
    (h : o.trim_fragment trim ks ke = .ok (o', f)) (hsp : o.span_consistent) :
    o'.span_consistent := by
  unfold OverlapResult.trim_fragment at h
  unfold OverlapResult.span_consistent at *
  by_cases hA : o.rows.head? = some (Row.frag trim) <;>
    by_cases hE : o.rows.getLast? = some (Row.frag trim) <;>
      simp only [hA, hE, decide_True, decide_False, Bool.not_true, Bool.not_false,
        Bool.and_self, Bool.true_and, Bool.false_and, Bool.and_false, Bool.and_true,
        Bool.not_eq_true, if_true, if_false, ite_true, ite_false] at h
  · have hsumE := getLast?_frag_sum o trim hE
    dsimp only [Fragment.length] at hsumE
    split_ifs at h
    all_goals try cases h
    all_goals try (rw [Except.ok.injEq, Prod.mk.injEq] at h; obtain ⟨ho', -⟩ := h; subst ho')
    all_goals
      (dsimp only
       simp only [List.map_append, List.sum_append, List.map_cons, List.sum_cons,
         List.map_nil, List.sum_nil, Row.length]
       dsimp only [Fragment.length]
       simp only [Bool.and_eq_true, Bool.not_eq_true', decide_eq_true_eq,
         decide_eq_false_iff_not, Bool.false_eq_true] at *
       try omega)
  · have hsumA := head?_frag_sum o trim hA
    dsimp only [Fragment.length] at hsumA
    split_ifs at h
    all_goals try cases h
    all_goals try (rw [Except.ok.injEq, Prod.mk.injEq] at h; obtain ⟨ho', -⟩ := h; subst ho')
    all_goals
      (dsimp only
       simp only [List.map_append, List.sum_append, List.map_cons, List.sum_cons,
         List.map_nil, List.sum_nil, Row.length]
       dsimp only [Fragment.length]
       simp only [Bool.and_eq_true, Bool.not_eq_true', decide_eq_true_eq,
         decide_eq_false_iff_not, Bool.false_eq_true] at *
       try omega)
  · have hsumE := getLast?_frag_sum o trim hE
    dsimp only [Fragment.length] at hsumE
    split_ifs at h
    all_goals try cases h
    all_goals try (rw [Except.ok.injEq, Prod.mk.injEq] at h; obtain ⟨ho', -⟩ := h; subst ho')
    all_goals
      (dsimp only
       simp only [List.map_append, List.sum_append, List.map_cons, List.sum_cons,
         List.map_nil, List.sum_nil, Row.length]
       dsimp only [Fragment.length]
       simp only [Bool.and_eq_true, Bool.not_eq_true', decide_eq_true_eq,
         decide_eq_false_iff_not, Bool.false_eq_true] at *
       try omega)
  · cases h

theorem pyGet_some_bounds (rows : List Row) (j : Int) (r : Row)
    (h : pyGet rows j = some r) :
    -(rows.length : Int) ≤ j ∧ j < rows.length := by
  unfold pyGet at h
  by_cases h0 : 0 ≤ j
  · rw [if_pos h0] at h
    have := List.get?_eq_some.mp h
    obtain ⟨hlt, -⟩ := this
    omega
  · rw [if_neg h0] at h
    by_cases h1 : -(rows.length : Int) ≤ j
    · rw [if_pos h1] at h
      omega
    · rw [if_neg h1] at h
      cases h

theorem backWalk_some_bounds (rows : List Row) :
    ∀ (fuel : Nat) (j j1 : Int), backWalk rows fuel j = some j1 →
      -(rows.length : Int) ≤ j1 ∧ j1 < rows.length := by
  intro fuel
  induction fuel with
  | zero => intro j j1 h; cases h
  | succ fuel ih =>
    intro j j1 h
    rw [backWalk] at h
    cases hp : pyGet rows j with
    | none => rw [hp] at h; cases h
    | some r =>
      rw [hp] at h
      dsimp only at h
      by_cases hg : r.isGap
      · rw [if_pos hg] at h
        exact ih (j - 1) j1 h
      · rw [if_neg hg, Option.some_inj] at h
        subst h
        exact pyGet_some_bounds rows j r hp

theorem slice_sum (rows : List Row) (i j : Nat) (hij : i ≤ j + 1) :
    (((rows.take (j + 1)).drop i).map Row.length).sum =
      lenSum rows (j + 1) - lenSum rows i := by
  have h1 : rows.take (j + 1) = rows.take i ++ (rows.take (j + 1)).drop i := by
    conv_lhs => rw [← List.take_append_drop i (rows.take (j + 1))]
    rw [List.take_take, min_eq_left hij]
  unfold lenSum
  conv_rhs => rw [h1]
  simp only [List.map_append, List.sum_append]
  ring

theorem find_overlaps_ok_some (asm : IndexedAssembly) (bait : Fragment)
    (r : OverlapResult) (h : asm.find_overlaps bait = .ok (some r)) :
    ∃ rows i1 j2, asm.scaffold_by_name bait.name = some rows ∧
      i1 < rows.length ∧ i1 ≤ j2 ∧ j2 < rows.length ∧
      r = ⟨bait, (rows.take (j2 + 1)).drop i1,
        idxStartPos (overlapIndex rows) i1, idxEndPos (overlapIndex rows) j2⟩ := by
  unfold IndexedAssembly.find_overlaps at h
  cases hlk : asm.scaffold_by_name bait.name with
  | none => rw [hlk] at h; cases h
  | some rows =>
    rw [hlk] at h
    dsimp only at h
    by_cases hemp : rows.isEmpty
    · rw [if_pos hemp] at h; cases h
    · rw [if_neg hemp] at h
      cases hbs : binSearch (overlapIndex rows) bait.start bait.stop
          ((overlapIndex rows).length + 1) 0 (overlapIndex rows).length with
      | none => rw [hbs] at h; cases h
      | some ovr =>
        rw [hbs] at h
        dsimp only at h
        cases hff : firstFragIdx rows (rows.length + 1)
            (extendLeft (overlapIndex rows) bait.start ovr) with
        | none => rw [hff] at h; cases h
        | some i1 =>
          rw [hff] at h
          dsimp only at h
          cases hbw : backWalk rows (2 * rows.length + 2)
              ((extendRight (overlapIndex rows) bait.stop
                ((overlapIndex rows).length + 1) ovr : Nat) : Int) with
          | none => rw [hbw] at h; cases h
          | some j1 =>
            rw [hbw] at h
            dsimp only at h
            by_cases hij : (i1 : Int) ≤ j1
            · rw [if_pos hij, Except.ok.injEq, Option.some_inj] at h
              obtain ⟨hi1a, hi1b, -, -⟩ := firstFragIdx_some rows (rows.length + 1)
                (extendLeft (overlapIndex rows) bait.start ovr) i1 (by omega) hff
              have hbnd := backWalk_some_bounds rows (2 * rows.length + 2) _ j1 hbw
              refine ⟨rows, i1, j1.toNat, rfl, hi1b, by omega, by omega, ?_⟩
              rw [← h]
            · rw [if_neg hij] at h
              cases h

theorem find_overlaps_some_span (asm : IndexedAssembly) (bait : Fragment)
    (r : OverlapResult) (h : asm.find_overlaps bait = .ok (some r)) :
    r.span_consistent := by
  obtain ⟨rows, i1, j2, -, hi1, hij, hj2, hr⟩ := find_overlaps_ok_some asm bait r h
  subst hr
  unfold OverlapResult.span_consistent
  dsimp only
  rw [slice_sum rows i1 j2 (by omega)]
  rw [idxStartPos_eq rows i1 hi1, idxEndPos_eq rows j2 hj2]
  unfold rowStartPos rowEndPos
  ring

/-! ### Overhang premises (C5) -/

theorem discard_start_overhang (o : OverlapResult) (hne : o.rows ≠ []) :
    o.discard_start.start_overhang = o.overhang_if_start_removed := by
  unfold OverlapResult.discard_start OverlapResult.overhang_if_start_removed
  cases hr : o.rows with
  | nil => exact absurd hr hne
  | cons r rest =>
    unfold OverlapResult.start_overhang
    try dsimp only
    try ring
    try rfl

theorem discard_end_overhang (o : OverlapResult) (hne : o.rows ≠ []) :
    o.discard_end.end_overhang = o.overhang_if_end_removed := by
  unfold OverlapResult.discard_end OverlapResult.overhang_if_end_removed
  cases hr : o.rows.reverse with
  | nil => exact absurd (List.reverse_eq_nil_iff.mp hr) hne
  | cons r rest =>
    unfold OverlapResult.end_overhang
    try dsimp only
    try ring
    try rfl

theorem storeGet_set (st : List OverlapResult) (sid : Nat) (v : OverlapResult)
    (h : sid < st.length) : storeGet (st.set sid v) sid = v := by
  simp [storeGet, List.getD, List.getElem?_set_self', h]

theorem improves_strictly_decreases (st : List OverlapResult) (p : OverhangPremise)
    (err : Int) (hsid : p.sid < st.length) (hne : (storeGet st p.sid).rows ≠ [])
    (himp : p.improves st err = true) :
    |p.overhang_at_side (p.applyP st)| < |p.overhang_at_side st| := by
  unfold OverhangPremise.improves at himp
  split at himp
  · cases himp
  · rw [Bool.and_eq_true, decide_eq_true_eq, decide_eq_true_eq] at himp
    obtain ⟨hdelta, -⟩ := himp
    unfold OverhangPremise.overhang_error_delta_if_applied at hdelta
    have happ : p.overhang_at_side (p.applyP st) = p.overhang_if_applied st := by
      unfold OverhangPremise.overhang_at_side OverhangPremise.applyP
        OverhangPremise.overhang_if_applied
      cases p.side with
      | start =>
        dsimp only
        rw [storeGet_set st p.sid _ hsid]
        exact discard_start_overhang _ hne
      | stop =>
        dsimp only
        rw [storeGet_set st p.sid _ hsid]
        exact discard_end_overhang _ hne
    rw [happ]
    omega

/-! ### Junction sets under scaffold reversal (C3) -/

theorem filterMap_frag_map_reverse (l : List Row) :
    List.filterMap (fun r => match r with | Row.frag f => some f | Row.gap _ => none)
      (l.map (fun r => match r with
        | Row.frag f => Row.frag f.reverse
        | Row.gap g => Row.gap g)) =
    (List.filterMap (fun r => match r with | Row.frag f => some f | Row.gap _ => none)
      l).map Fragment.reverse := by
  induction l with
  | nil => rfl
  | cons r t ih => cases r <;> simp [List.filterMap_cons, ih]

theorem reverse_fragments_eq (s : Scaffold) :
    s.reverse.fragments = (s.fragments.map Fragment.reverse).reverse := by
  unfold Scaffold.reverse Scaffold.fragments
  dsimp only
  rw [filterMap_frag_map_reverse, List.filterMap_reverse, List.map_reverse]

theorem junctionList_concat (xs : List Fragment) (x y : Fragment) :
    junctionList (xs ++ [x, y]) =
      junctionList (xs ++ [x]) ++ [x.junction_tuple y] := by
  induction xs with
  | nil => rfl
  | cons a t ih =>
    cases t with
    | nil => rfl
    | cons b u =>
      show a.junction_tuple b :: junctionList ((b :: u) ++ [x, y]) =
        (a.junction_tuple b :: junctionList ((b :: u) ++ [x])) ++ [x.junction_tuple y]
      rw [ih]
      rfl

theorem junction_tuple_reverse_pair (a b : Fragment) (hs : a.strand = b.strand)
    (hpm : a.strand = 1 ∨ a.strand = -1) :
    (b.reverse).junction_tuple (a.reverse) = a.junction_tuple b := by
  unfold Fragment.junction_tuple Fragment.reverse
  rcases hpm with h | h
  · have hb : b.strand = 1 := by omega
    simp [h, hb]
  · have hb : b.strand = -1 := by omega
    simp [h, hb]

theorem junctionList_reverse (fs : List Fragment)
    (hch : List.Chain' (fun a b => a.strand = b.strand) fs)
    (hpm : ∀ f ∈ fs, f.strand = 1 ∨ f.strand = -1) :
    junctionList ((fs.map Fragment.reverse).reverse) = (junctionList fs).reverse := by
  induction fs with
  | nil => rfl
  | cons a t ih =>
    cases t with
    | nil => rfl
    | cons b u =>
      obtain ⟨hab, hch'⟩ := List.chain'_cons.mp hch
      have h1 : ((a :: b :: u).map Fragment.reverse).reverse
          = (((u.map Fragment.reverse).reverse ++ [b.reverse]) ++ [a.reverse]) := by
        simp
      have h2 : ((b :: u).map Fragment.reverse).reverse
          = (u.map Fragment.reverse).reverse ++ [b.reverse] := by
        simp
      rw [h1,
        show ((u.map Fragment.reverse).reverse ++ [b.reverse]) ++ [a.reverse]
          = (u.map Fragment.reverse).reverse ++ [b.reverse, a.reverse] by simp,
        junctionList_concat, ← h2,
        ih hch' (fun f hf => hpm f (List.mem_cons_of_mem a hf)),
        junction_tuple_reverse_pair a b hab (hpm a (List.mem_cons_self a _))]
      show (junctionList (b :: u)).reverse ++ [a.junction_tuple b]
        = (a.junction_tuple b :: junctionList (b :: u)).reverse
      rw [List.reverse_cons]

theorem fragment_junction_set_reverse_eq (s : Scaffold)
    (hch : List.Chain' (fun a b => a.strand = b.strand) s.fragments)
    (hpm : ∀ f ∈ s.fragments, f.strand = 1 ∨ f.strand = -1) :
    s.reverse.fragment_junction_set = s.fragment_junction_set := by
  unfold Scaffold.fragment_junction_set
  rw [reverse_fragments_eq, junctionList_reverse s.fragments hch hpm,
    List.toFinset_reverse]


theorem exceptMapM_ok {α β : Type} (g : α → Except String β) :
    ∀ (l : List α) (out : List β), l.mapM g = .ok out →
      ∀ b ∈ out, ∃ a ∈ l, g a = .ok b := by
  intro l
  induction l with
  | nil =>
    intro out h b hb
    simp only [List.mapM_nil, pure, Except.pure, Except.ok.injEq] at h
    subst h
    cases hb
  | cons a t ih =>
    intro out h b hb
    rw [List.mapM_cons] at h
    cases hga : g a with
    | error e =>
      rw [hga] at h
      simp only [Bind.bind, Except.bind] at h
      cases h
    | ok x =>
      rw [hga] at h
      cases hgt : t.mapM g with
      | error e =>
        rw [hgt] at h
        simp only [Bind.bind, Except.bind, pure, Except.pure] at h
        cases h
      | ok xs =>
        rw [hgt] at h
        simp only [Bind.bind, Except.bind, pure, Except.pure, Except.ok.injEq] at h
        subst h
        rcases List.mem_cons.mp hb with hb | hb
        · exact ⟨a, List.mem_cons_self a t, hb ▸ hga⟩
        · obtain ⟨a', ha', hga'⟩ := ih xs hgt b hb
          exact ⟨a', List.mem_cons_of_mem a ha', hga'⟩

theorem adjacentPairs_cons_cons {α : Type} (a b : α) (t : List α) :
    adjacentPairs (a :: b :: t) = (a, b) :: adjacentPairs (b :: t) := rfl

theorem adjacentPairs_chain' {α : Type} (R : α → α → Prop) :
    ∀ l : List α, (∀ q ∈ adjacentPairs l, R q.1 q.2) → List.Chain' R l
  | [], _ => List.chain'_nil
  | [_], _ => List.chain'_singleton _
  | a :: b :: t, h => by
    rw [List.chain'_cons]
    refine ⟨h (a, b) ?_, adjacentPairs_chain' R (b :: t) fun q hq => h q ?_⟩
    · rw [adjacentPairs_cons_cons]
      exact List.mem_cons_self _ _
    · rw [adjacentPairs_cons_cons]
      exact List.mem_cons_of_mem _ hq

theorem adjacentPairs_of_pairwise {α : Type} (R : α → α → Prop) :
    ∀ l : List α, l.Pairwise R → ∀ q ∈ adjacentPairs l, R q.1 q.2
  | [], _, q, hq => absurd hq (List.not_mem_nil q)
  | [_], _, q, hq => absurd hq (List.not_mem_nil q)
  | a :: b :: t, h, q, hq => by
    rw [adjacentPairs_cons_cons] at hq
    rw [List.pairwise_cons] at h
    rcases List.mem_cons.mp hq with hq | hq
    · subst hq
      exact h.1 b (List.mem_cons_self b t)
    · exact adjacentPairs_of_pairwise R (b :: t) h.2 q hq

theorem adjacentPairs_mem {α : Type} :
    ∀ l : List α, ∀ q ∈ adjacentPairs l, q.1 ∈ l ∧ q.2 ∈ l
  | [], q, hq => absurd hq (List.not_mem_nil q)
  | [_], q, hq => absurd hq (List.not_mem_nil q)
  | a :: b :: t, q, hq => by
    rw [adjacentPairs_cons_cons] at hq
    rcases List.mem_cons.mp hq with hq | hq
    · subst hq
      exact ⟨List.mem_cons_self _ _, List.mem_cons_of_mem _ (List.mem_cons_self b t)⟩
    · obtain ⟨h1, h2⟩ := adjacentPairs_mem (b :: t) q hq
      exact ⟨List.mem_cons_of_mem _ h1, List.mem_cons_of_mem _ h2⟩

theorem sep_chain_pairwise :
    ∀ l : List Fragment, (∀ f ∈ l, f.start ≤ f.stop) →
      List.Chain' (fun a b => a.stop < b.start) l →
      l.Pairwise (fun a b => a.stop < b.start)
  | [], _, _ => List.Pairwise.nil
  | [a], _, _ => List.pairwise_singleton _ a
  | a :: b :: t, hv, hc => by
    rw [List.chain'_cons] at hc
    have ih := sep_chain_pairwise (b :: t)
      (fun f hf => hv f (List.mem_cons_of_mem a hf)) hc.2
    rw [List.pairwise_cons]
    refine ⟨fun c hc' => ?_, ih⟩
    rcases List.mem_cons.mp hc' with hc' | hc'
    · exact hc' ▸ hc.1
    · rw [List.pairwise_cons] at ih
      have h1 := ih.1 c hc'
      have h2 : b.start ≤ b.stop := hv b (List.mem_cons_of_mem a (List.mem_cons_self b t))
      have h3 := hc.1
      omega

theorem overlaps_false_of_sep (a b : Fragment) (h : a.stop < b.start) :
    a.overlaps b = false := by
  unfold Fragment.overlaps
  have hd : decide (b.start ≤ a.stop) = false := by
    rw [decide_eq_false_iff_not]
    omega
  rw [hd]
  simp

set_option maxHeartbeats 1000000 in
theorem trim_fragment_ok_frag (o : OverlapResult) (trim : Fragment) (ks ke : Bool)
    (o' : OverlapResult) (f : Fragment)
    (h : o.trim_fragment trim ks ke = .ok (o', f)) :
    f.name = trim.name ∧ f.start ≤ f.stop := by
  unfold OverlapResult.trim_fragment at h
  by_cases hA : o.rows.head? = some (Row.frag trim) <;>
    by_cases hE : o.rows.getLast? = some (Row.frag trim) <;>
      simp only [hA, hE, decide_True, decide_False, Bool.not_true, Bool.not_false,
        Bool.and_self, Bool.true_and, Bool.false_and, Bool.and_false, Bool.and_true,
        Bool.not_eq_true, if_true, if_false, ite_true, ite_false] at h
  all_goals try exact Except.noConfusion h
  all_goals split_ifs at h
  all_goals first
    | exact Except.noConfusion h
    | (rw [Except.ok.injEq, Prod.mk.injEq] at h
       obtain ⟨-, hf⟩ := h
       subst hf
       refine ⟨rfl, ?_⟩
       simp only [Bool.and_eq_true, Bool.not_eq_true', decide_eq_true_eq,
         decide_eq_false_iff_not, Bool.false_eq_true] at *
       try omega)


theorem addMissingLoop_some (found : String × Int × Int → Bool) (dg : Gap)
    (rows : List Row) :
    ∀ (pairs : List (Nat × Fragment)) (acc0 : List Row) (k : Nat),
      addMissingLoop found dg rows pairs (some acc0) (some k) =
        some (acc0 ++ interleaveFrom rows dg k
          (pairs.filter fun p => !(found p.2.key_tuple))) := by
  intro pairs
  induction pairs with
  | nil =>
    intro acc0 k
    simp [addMissingLoop, interleaveFrom]
  | cons p rest ih =>
    intro acc0 k
    obtain ⟨i, f⟩ := p
    by_cases hf : found f.key_tuple = true
    · simp only [addMissingLoop, hf, if_true, List.filter_cons, Bool.not_eq_true',
        Bool.not_true, ih]
      simp
    · have hf' : found f.key_tuple = false := by
        cases hcf : found f.key_tuple
        · rfl
        · exact absurd hcf hf
      by_cases hk : k = i - 1
      · simp only [addMissingLoop, hf', Bool.false_eq_true, if_false, Option.getD_some,
          ne_eq, hk, not_true_eq_false, ih, List.filter_cons, Bool.not_false, if_true,
          interleaveFrom, missingFill, if_pos (rfl : i - 1 = i - 1)]
        simp
      · simp only [addMissingLoop, hf', Bool.false_eq_true, if_false, Option.getD_some,
          ne_eq, hk, not_false_eq_true, if_true, ih, List.filter_cons, Bool.not_false,
          interleaveFrom, missingFill, if_neg hk]
        simp

theorem addMissingLoop_none (found : String × Int × Int → Bool) (dg : Gap)
    (rows : List Row) :
    ∀ pairs : List (Nat × Fragment),
      addMissingLoop found dg rows pairs none none =
        (match pairs.filter (fun p => !(found p.2.key_tuple)) with
         | [] => none
         | (i, f) :: rest => some (Row.frag f :: interleaveFrom rows dg i rest)) := by
  intro pairs
  induction pairs with
  | nil => simp [addMissingLoop]
  | cons p rest ih =>
    obtain ⟨i, f⟩ := p
    by_cases hf : found f.key_tuple = true
    · simp only [addMissingLoop, hf, if_true, List.filter_cons, Bool.not_eq_true',
        Bool.not_true, ih]
      simp
    · have hf' : found f.key_tuple = false := by
        cases hcf : found f.key_tuple
        · rfl
        · exact absurd hcf hf
      simp only [addMissingLoop, hf', Bool.false_eq_true, if_false, Option.getD_none,
        List.nil_append, addMissingLoop_some, List.filter_cons, Bool.not_false, if_true]
      simp


theorem trim_end_side_eq (o1 : OverlapResult) (err_length : Int)
    (hne1 : o1.rows ≠ []) :
    o1.trim_end_side err_length =
      .ok (if err_length < o1.end_overhang ∧ o1.end_row_bait_overlap < err_length
        then o1.discard_end else o1) := by
  have hemp1 : ¬(o1.rows.isEmpty = true) := by
    cases hr : o1.rows
    · exact absurd hr hne1
    · simp
  unfold OverlapResult.trim_end_side
  by_cases he : err_length < o1.end_overhang
  · rw [if_pos he, if_neg hemp1]
    by_cases hbe : o1.end_row_bait_overlap < err_length
    · rw [if_pos hbe, if_pos ⟨he, hbe⟩]
    · rw [if_neg hbe, if_neg (fun hc => hbe hc.2)]
  · rw [if_neg he, if_neg (fun hc => he hc.1)]

/-- C10: the span bookkeeping invariant `end - start + 1 = Σ row lengths`
holds of every OverlapResult `find_overlaps` returns, and is preserved by
`discard_start`, `discard_end` and `trim_fragment`. -/
theorem overlap_result_span_invariant :
    (∀ (asm : IndexedAssembly) (bait : Fragment) (r : OverlapResult),
      asm.find_overlaps bait = .ok (some r) → r.span_consistent) ∧
    (∀ o : OverlapResult, o.rows ≠ [] → o.span_consistent →
      o.discard_start.span_consistent) ∧
    (∀ o : OverlapResult, o.rows ≠ [] → o.span_consistent →
      o.discard_end.span_consistent) ∧
    (∀ (o : OverlapResult) (trim : Fragment) (ks ke : Bool)
      (o' : OverlapResult) (f : Fragment),
      o.trim_fragment trim ks ke = .ok (o', f) → o.span_consistent →
        o'.span_consistent) :=
  ⟨find_overlaps_some_span, discard_start_span, discard_end_span,
    trim_fragment_ok_span⟩

/-- C3 (amended): reversing a scaffold whose fragments all lie on one
strand (all `+1` or all `-1`, pairwise equal) preserves the fragment
junction set.  As claimed — over arbitrary mixes of `+1`/`-1` strands —
the property fails: see `reverse_junction_set_mixed_strand_cex`. -/
theorem reverse_junction_set_uniform_strand (s : Scaffold)
    (hch : List.Chain' (fun a b => a.strand = b.strand) s.fragments)
    (hpm : ∀ f ∈ s.fragments, f.strand = 1 ∨ f.strand = -1) :
    s.reverse.fragment_junction_set = s.fragment_junction_set :=
  fragment_junction_set_reverse_eq s hch hpm

/-- The C3 theorem at the uniform-strand fixture `egS3uni`. -/
theorem reverse_junction_set_uniform_strand_witness :
    List.Chain' (fun a b => a.strand = b.strand) egS3uni.fragments ∧
    (∀ f ∈ egS3uni.fragments, f.strand = 1 ∨ f.strand = -1) ∧
    egS3uni.reverse.fragment_junction_set = egS3uni.fragment_junction_set :=
  ⟨List.chain'_cons.mpr ⟨rfl, List.chain'_singleton _⟩, by decide,
    reverse_junction_set_uniform_strand egS3uni
      (List.chain'_cons.mpr ⟨rfl, List.chain'_singleton _⟩) (by decide)⟩

/-- C3 counterexample: every strand of `egS3mix` is `±1`, yet reversing
the scaffold changes its junction set. -/
theorem reverse_junction_set_mixed_strand_cex :
    (∀ f ∈ egS3mix.fragments, f.strand = 1 ∨ f.strand = -1) ∧
    egS3mix.reverse.fragment_junction_set ≠ egS3mix.fragment_junction_set := by
  decide

/-- C4 (amended): for a premise list of exactly two entries whose bait
overlaps are both under `err_length`, `make_fixes` applies the premise
with the strictly shorter bait overlap — and on a tie the SECOND entry,
not the first (see `two_small_premises_tie_cex`). -/
theorem two_small_premises_fix (err_length : Int) (st : List OverlapResult)
    (frst scnd : OverhangPremise)
    (hb : frst.bait_overlap st < err_length ∧ scnd.bait_overlap st < err_length) :
    makeFixesForList err_length st [frst, scnd] =
      if frst.bait_overlap st < scnd.bait_overlap st
      then (frst.applyP st, [frst]) else (scnd.applyP st, [scnd]) := by
  unfold makeFixesForList
  dsimp only
  rw [if_pos hb]

/-- The C4 theorem at the fixtures, whose bait overlaps are 15 and 15. -/
theorem two_small_premises_fix_witness :
    (egP41.bait_overlap egSt4 < 100 ∧ egP42.bait_overlap egSt4 < 100) ∧
    makeFixesForList 100 egSt4 [egP41, egP42] =
      (if egP41.bait_overlap egSt4 < egP42.bait_overlap egSt4
       then (egP41.applyP egSt4, [egP41]) else (egP42.applyP egSt4, [egP42])) :=
  ⟨by decide, two_small_premises_fix 100 egSt4 egP41 egP42 (by decide)⟩

/-- C4 counterexample: both bait overlaps equal 15 (< 100), and the fix
applied is the second premise of the list, not the first. -/
theorem two_small_premises_tie_cex :
    egP41.bait_overlap egSt4 = egP42.bait_overlap egSt4 ∧
    egP41.bait_overlap egSt4 < 100 ∧
    (makeFixesForList 100 egSt4 [egP41, egP42]).2 = [egP42] ∧
    egP41 ≠ egP42 := by
  decide

/-- C6 (amended): over a nonempty row list, `trim_large_overhangs` first
discards the start row exactly when `start_overhang > err_length` and
`start_row_bait_overlap < err_length`, then does the same for the end of
the intermediate result `o1`.  Its do-nothing guard fires on a single-row
result whose BAIT is longer than `err_length` — not, as claimed, when the
row itself is (see `trim_large_overhangs_guard_cex`). -/
theorem trim_large_overhangs_behavior (o o1 : OverlapResult) (err_length : Int)
    (hguard : ¬(o.rows.length = 1 ∧ err_length < o.bait.length))
    (hne : o.rows ≠ []) (hne1 : o1.rows ≠ [])
    (ho1 : o1 = if err_length < o.start_overhang ∧ o.start_row_bait_overlap < err_length
      then o.discard_start else o) :
    o.trim_large_overhangs err_length =
      .ok (if err_length < o1.end_overhang ∧ o1.end_row_bait_overlap < err_length
        then o1.discard_end else o1) := by
  have hemp : ¬(o.rows.isEmpty = true) := by
    cases hr : o.rows
    · exact absurd hr hne
    · simp
  have hts := trim_end_side_eq o1 err_length hne1
  have hstep : (if err_length < o.start_overhang then
      (if o.rows.isEmpty then (Except.error "IndexError" : Except String OverlapResult)
       else Except.ok (if o.start_row_bait_overlap < err_length then o.discard_start else o))
      else Except.ok o) = Except.ok o1 := by
    by_cases hs : err_length < o.start_overhang
    · rw [if_pos hs, if_neg hemp]
      by_cases hb : o.start_row_bait_overlap < err_length
      · rw [if_pos hb, ho1, if_pos ⟨hs, hb⟩]
      · rw [if_neg hb, ho1, if_neg (fun hc => hb hc.2)]
    · rw [if_neg hs, ho1, if_neg (fun hc => hs hc.1)]
  unfold OverlapResult.trim_large_overhangs
  rw [if_neg hguard]
  show (match (if err_length < o.start_overhang then
      (if o.rows.isEmpty then (Except.error "IndexError" : Except String OverlapResult)
       else Except.ok (if o.start_row_bait_overlap < err_length then o.discard_start else o))
      else Except.ok o) with
    | .error e => (.error e : Except String OverlapResult)
    | .ok o2 => o2.trim_end_side err_length) = _
  rw [hstep]
  exact hts

/-- The C6 theorem at the fixture `egO6w`: the start row (overhang 61,
bait overlap 0) is discarded, the end (overhang 0) is kept. -/
theorem trim_large_overhangs_behavior_witness :
    ¬(egO6w.rows.length = 1 ∧ 10 < egO6w.bait.length) ∧
    egO6w.rows ≠ [] ∧ egO6w1.rows ≠ [] ∧
    egO6w1 = (if 10 < egO6w.start_overhang ∧ egO6w.start_row_bait_overlap < 10
      then egO6w.discard_start else egO6w) ∧
    egO6w.trim_large_overhangs 10 =
      .ok (if 10 < egO6w1.end_overhang ∧ egO6w1.end_row_bait_overlap < 10
        then egO6w1.discard_end else egO6w1) :=
  ⟨by decide, by decide, by decide, by decide,
    trim_large_overhangs_behavior egO6w egO6w1 10 (by decide) (by decide)
      (by decide) (by decide)⟩

/-- C6 counterexample: `egO6` meets the claim's discard condition
(start overhang 11 > 10, start-row bait overlap 0 < 10) and its single
row has length 5 ≤ 10, yet `trim_large_overhangs` leaves it unchanged,
because the guard tests the bait's length (19 > 10). -/
theorem trim_large_overhangs_guard_cex :
    10 < egO6.start_overhang ∧ egO6.start_row_bait_overlap < 10 ∧
    (rowAt egO6.rows 0).length ≤ 10 ∧
    egO6.trim_large_overhangs 10 = .ok egO6 :=
  ⟨by decide, by decide, by decide, rfl⟩

/-- C8 (amended): per input scaffold, `add_missing_scaffolds_from_input`
emits a fresh rank-3 scaffold holding exactly the fragments whose key is
not in `found_fragments`, interleaved with `missingFill` fillers: the row
right before each kept fragment is reused verbatim whenever it is a Gap —
even when it spans a missing region — and the `default_gap` stands in
only when that row is a Fragment (see `add_missing_gap_verbatim_cex`). -/
theorem add_missing_scaffold_spec (found : String × Int × Int → Bool)
    (dg : Gap) (s : Scaffold) :
    add_missing_scaffold found dg s =
      (match (idxFragments s.rows).filter (fun p => !(found p.2.key_tuple)) with
       | [] => none
       | (i, f) :: rest =>
         some { name := s.name,
                rows := Row.frag f :: interleaveFrom s.rows dg i rest,
                rank := 3 }) := by
  unfold add_missing_scaffold
  rw [addMissingLoop_none]
  cases hfil : (idxFragments s.rows).filter (fun p => !(found p.2.key_tuple)) with
  | nil => rfl
  | cons p rest =>
    obtain ⟨i, f⟩ := p
    rfl

/-- C8 counterexample: with only `b` placed, the scaffold emitted for
`egS8` keeps the 99-base contig gap before `c` verbatim although the
whole region between `a` and `c` (including `b`) is missing; the claim
expects the 200-base scaffold-type default gap there. -/
theorem add_missing_gap_verbatim_cex :
    add_missing_scaffold egFound8 egDg8 egS8 =
      some { name := "s8",
             rows := [Row.frag ⟨"a", 1, 10, 1, []⟩, Row.gap ⟨99, "contig"⟩,
               Row.frag ⟨"c", 1, 10, 1, []⟩],
             rank := 3 } ∧
    (⟨99, "contig"⟩ : Gap) ≠ egDg8 :=
  ⟨rfl, by decide⟩

/-- C9 (amended): with the "Consecutive" check commented out of
`check_groups`, `build_groups` raises only for the `<empty>` condition —
a group that shows at least one row but whose first-haplotype slot is
empty; a group whose first haplotype holds several original names is
accepted without error (see `build_groups_consecutive_ok_cex`). -/
theorem build_groups_error_conditions
    (scaffolds : List (Option String × Scaffold))
    (first : Option String) (rest : List (Option String))
    (groups : List ChrGroupL)
    (hseen : seenHaps scaffolds = first :: rest)
    (hraw : buildGroupsRaw scaffolds = .ok groups) :
    ((∃ g ∈ groups, groupEmptyFirstHap first g = true) →
      build_groups scaffolds = .error "Error naming autosomes") ∧
    ((∀ g ∈ groups, groupEmptyFirstHap first g = false) →
      build_groups scaffolds = .ok groups) := by
  constructor
  · intro hex
    have hchk : checkGroupsHasErrors first groups = true :=
      List.any_eq_true.mpr hex
    unfold build_groups
    rw [hseen]
    dsimp only
    rw [hraw]
    dsimp only
    rw [if_pos hchk]
  · intro hall
    have hchk : checkGroupsHasErrors first groups = false := by
      unfold checkGroupsHasErrors
      rw [List.any_eq_false]
      intro g hg
      rw [hall g hg]
      simp
    unfold build_groups
    rw [hseen]
    dsimp only
    rw [hraw]
    dsimp only
    rw [if_neg (by rw [hchk]; simp)]

/-- The C9 theorem at the fixtures: one group, no empty first-haplotype
slot, so `build_groups` succeeds. -/
theorem build_groups_error_conditions_witness :
    seenHaps egScaffolds9 = [some "Hap1", some "Hap2"] ∧
    buildGroupsRaw egScaffolds9 = .ok [egGroup9] ∧
    (((∃ g ∈ [egGroup9], groupEmptyFirstHap (some "Hap1") g = true) →
      build_groups egScaffolds9 = .error "Error naming autosomes") ∧
    ((∀ g ∈ [egGroup9], groupEmptyFirstHap (some "Hap1") g = false) →
      build_groups egScaffolds9 = .ok [egGroup9])) :=
  ⟨rfl, rfl,
    build_groups_error_conditions egScaffolds9 (some "Hap1") [some "Hap2"]
      [egGroup9] rfl rfl⟩

/-- C9 counterexample: the first haplotype slot of the one group built
from `egScaffolds9` holds two original names (`A` and `B` were painted
consecutively), yet `build_groups` returns it without error. -/
theorem build_groups_consecutive_ok_cex :
    build_groups egScaffolds9 = .ok [egGroup9] ∧
    2 ≤ (lookupA egGroup9 (some "Hap1")).length :=
  ⟨rfl, by decide⟩


/-- C5 (amended): every premise `make_fixes` applies through its
improvement-gated general path (any premise list other than the
two-entry-both-small shape) strictly decreases the absolute overhang at
the side it removes.  The two-entry rule applies without that check and
can increase it: see `two_small_rule_worsens_cex`. -/
theorem applied_premise_strictly_improves
    (err_length : Int) (st st' : List OverlapResult)
    (prem_list : List OverhangPremise) (p : OverhangPremise)
    (hwf : ∀ q ∈ prem_list, q.sid < st.length ∧ (storeGet st q.sid).rows ≠ [])
    (hnot2 : match prem_list with
      | [frst, scnd] => ¬(frst.bait_overlap st < err_length ∧
          scnd.bait_overlap st < err_length)
      | _ => True)
    (hrun : makeFixesForList err_length st prem_list = (st', [p])) :
    |p.overhang_at_side st'| < |p.overhang_at_side st| := by
  have hgen : ∀ bst nxt rest2,
      prem_list.insertionSort
        (fun a b => a.overhang_error_delta_if_applied st ≤
          b.overhang_error_delta_if_applied st) = bst :: nxt :: rest2 →
      (if bst.improves st err_length && nxt.makes_worse st err_length then
        (bst.applyP st, [bst]) else (st, []))
        = (st', [p]) →
      |p.overhang_at_side st'| < |p.overhang_at_side st| := by
    intro bst nxt rest2 hsort hif
    by_cases hi : bst.improves st err_length && nxt.makes_worse st err_length
    · rw [if_pos hi] at hif
      rw [Prod.mk.injEq] at hif
      obtain ⟨hst', hp⟩ := hif
      have hpb : p = bst := (List.cons.injEq _ _ _ _).mp hp.symm |>.1
      subst hpb
      subst hst'
      have hmem : p ∈ prem_list := by
        have : p ∈ prem_list.insertionSort
            (fun a b => a.overhang_error_delta_if_applied st ≤
              b.overhang_error_delta_if_applied st) := by
          rw [hsort]
          exact List.mem_cons_self _ _
        exact (List.perm_insertionSort _ prem_list).mem_iff.mp this
      obtain ⟨hsid, hne⟩ := hwf p hmem
      rw [Bool.and_eq_true] at hi
      exact improves_strictly_decreases st p err_length hsid hne hi.1
    · rw [if_neg hi] at hif
      rw [Prod.mk.injEq] at hif
      exact absurd hif.2 (by simp)
  cases prem_list with
  | nil => exact absurd (congrArg Prod.snd hrun) (by simp [makeFixesForList])
  | cons q1 t1 =>
    cases t1 with
    | nil => exact absurd (congrArg Prod.snd hrun) (by simp [makeFixesForList])
    | cons q2 t2 =>
      cases t2 with
      | nil =>
        dsimp only at hnot2
        unfold makeFixesForList at hrun
        dsimp only at hrun
        rw [if_neg hnot2] at hrun
        cases hsort : ([q1, q2].insertionSort
            (fun a b => a.overhang_error_delta_if_applied st ≤
              b.overhang_error_delta_if_applied st)) with
        | nil =>
          have := (List.perm_insertionSort
            (fun a b : OverhangPremise => a.overhang_error_delta_if_applied st ≤
              b.overhang_error_delta_if_applied st) [q1, q2]).length_eq
          rw [hsort] at this
          cases this
        | cons bst t =>
          cases t with
          | nil =>
            have := (List.perm_insertionSort
              (fun a b : OverhangPremise => a.overhang_error_delta_if_applied st ≤
                b.overhang_error_delta_if_applied st) [q1, q2]).length_eq
            rw [hsort] at this
            cases this
          | cons nxt rest2 =>
            rw [hsort] at hrun
            rw [if_pos (by simp : (1 : Nat) < [q1, q2].length)] at hrun
            dsimp only at hrun
            exact hgen bst nxt rest2 hsort hrun
      | cons q3 t3 =>
        unfold makeFixesForList at hrun
        dsimp only at hrun
        cases hsort : ((q1 :: q2 :: q3 :: t3).insertionSort
            (fun a b => a.overhang_error_delta_if_applied st ≤
              b.overhang_error_delta_if_applied st)) with
        | nil =>
          have := (List.perm_insertionSort
            (fun a b : OverhangPremise => a.overhang_error_delta_if_applied st ≤
              b.overhang_error_delta_if_applied st) (q1 :: q2 :: q3 :: t3)).length_eq
          rw [hsort] at this
          cases this
        | cons bst t =>
          cases t with
          | nil =>
            have := (List.perm_insertionSort
              (fun a b : OverhangPremise => a.overhang_error_delta_if_applied st ≤
                b.overhang_error_delta_if_applied st) (q1 :: q2 :: q3 :: t3)).length_eq
            rw [hsort] at this
            cases this
          | cons nxt rest2 =>
            rw [hsort] at hrun
            rw [if_pos (by simp : (1 : Nat) < (q1 :: q2 :: q3 :: t3).length)] at hrun
            dsimp only at hrun
            exact hgen bst nxt rest2 hsort hrun

/-- The C5 theorem at the fixtures: `egP5w1` improves (delta -48) and
`egP5w2` worsens (delta 70), so the general path applies `egP5w1`,
shrinking the absolute start overhang from 49 to 1. -/
theorem applied_premise_strictly_improves_witness :
    (∀ q ∈ [egP5w1, egP5w2], q.sid < egSt5w.length ∧
      (storeGet egSt5w q.sid).rows ≠ []) ∧
    ¬(egP5w1.bait_overlap egSt5w < 10 ∧ egP5w2.bait_overlap egSt5w < 10) ∧
    makeFixesForList 10 egSt5w [egP5w1, egP5w2] =
      ((makeFixesForList 10 egSt5w [egP5w1, egP5w2]).1, [egP5w1]) ∧
    |egP5w1.overhang_at_side (makeFixesForList 10 egSt5w [egP5w1, egP5w2]).1| <
      |egP5w1.overhang_at_side egSt5w| :=
  ⟨by decide, by decide, by decide,
    applied_premise_strictly_improves 10 egSt5w
      (makeFixesForList 10 egSt5w [egP5w1, egP5w2]).1 [egP5w1, egP5w2] egP5w1
      (by decide) (by decide) (by decide)⟩

/-- C5 counterexample: both bait overlaps of `egSt5`'s premises are under
the error length 200, so the two-entry rule applies `egP51` with no
improvement check — and the absolute start overhang grows from 49 to
151. -/
theorem two_small_rule_worsens_cex :
    egP51.bait_overlap egSt5 < 200 ∧ egP52.bait_overlap egSt5 < 200 ∧
    (makeFixesForList 200 egSt5 [egP51, egP52]).2 = [egP51] ∧
    ¬(|egP51.overhang_at_side (makeFixesForList 200 egSt5 [egP51, egP52]).1| <
      |egP51.overhang_at_side egSt5|) := by
  decide


/-- C2 (amended): for a bait naming a nonempty scaffold with
positive-length rows, `find_overlaps` returns exactly the §4.1 contract
(`specFindOverlaps`: the intersecting rows with leading and trailing
Gaps trimmed and scaffold-coordinate bounds, or `none` when no Fragment
row intersects) — provided that either no row intersects the bait or
some intersecting row is followed (at or after it) by an intersecting
scaffold region containing a Fragment row.  In the remaining case —
every row from the first intersecting one onward that the walks visit is
a Gap — Python raises an IndexError instead of returning the contract's
null: see `find_overlaps_gap_only_raises`. -/
theorem find_overlaps_spec_contract
    (asm : IndexedAssembly) (bait : Fragment) (rows : List Row)
    (hlk : asm.scaffold_by_name bait.name = some rows)
    (hne : rows ≠ [])
    (hpos : ∀ r ∈ rows, 1 ≤ r.length)
    (hsafe :
      (∀ i, i < rows.length → rowIntersects rows bait.start bait.stop i = false) ∨
      (∃ k, k < rows.length ∧ (rowAt rows k).isFrag = true ∧
        ∃ i, i ≤ k ∧ rowIntersects rows bait.start bait.stop i = true)) :
    asm.find_overlaps bait = .ok (specFindOverlaps rows bait) :=
  find_overlaps_matches_spec asm bait rows hlk hne hpos hsafe

/-- The C2 theorem at the fixtures: the bait hits the gap and the second
fragment of `egRows2`, and the result is the second fragment alone with
bounds 41-100. -/
theorem find_overlaps_spec_contract_witness :
    egAsm2.scaffold_by_name egBait2.name = some egRows2 ∧
    egRows2 ≠ [] ∧
    (∀ r ∈ egRows2, 1 ≤ r.length) ∧
    ((∀ i, i < egRows2.length →
        rowIntersects egRows2 egBait2.start egBait2.stop i = false) ∨
      (∃ k, k < egRows2.length ∧ (rowAt egRows2 k).isFrag = true ∧
        ∃ i, i ≤ k ∧ rowIntersects egRows2 egBait2.start egBait2.stop i = true)) ∧
    egAsm2.find_overlaps egBait2 = .ok (specFindOverlaps egRows2 egBait2) :=
  ⟨rfl, by decide, by decide,
    Or.inr ⟨2, by decide, by decide, 1, by decide, by decide⟩,
    find_overlaps_spec_contract egAsm2 egBait2 egRows2 rfl (by decide) (by decide)
      (Or.inr ⟨2, by decide, by decide, 1, by decide, by decide⟩)⟩

/-- C2 counterexample: the bait `egBait2g` intersects only the trailing
gap of `egRows2g`.  The claim (and the spec contract) call for a null
result, but the forward gap walk of `find_overlaps` runs off the row
list and Python raises an IndexError. -/
theorem find_overlaps_gap_only_raises :
    egAsm2g.find_overlaps egBait2g = .error "IndexError" ∧
    specFindOverlaps egRows2g egBait2g = none :=
  ⟨rfl, rfl⟩


theorem cut_fragments_subs_props (frgmnt : Fragment)
    (scaffolds : List OverlapResult) (subs : List Fragment)
    (h : cut_fragments frgmnt scaffolds = .ok subs) :
    qc_sub_fragments_ok frgmnt subs = true ∧
    ∀ f ∈ subs, f.name = frgmnt.name ∧ f.start ≤ f.stop := by
  simp only [cut_fragments] at h
  split at h
  · cases h
  · rename_i subs0 heq
    by_cases hqc : qc_sub_fragments_ok frgmnt subs0 = true
    · rw [if_pos hqc, Except.ok.injEq] at h
      subst h
      refine ⟨hqc, ?_⟩
      intro f hf
      obtain ⟨iv, hiv, hgiv⟩ := exceptMapM_ok _ _ _ heq f hf
      cases htf : iv.2.trim_fragment frgmnt (iv.1 == 0)
          (iv.1 == (scaffolds.insertionSort
            (fun a b => a.fragment_start_if_trimmed frgmnt ≤
              b.fragment_start_if_trimmed frgmnt)).length - 1) with
      | error e =>
        rw [htf] at hgiv
        cases hgiv
      | ok pr =>
        rw [htf] at hgiv
        simp only [Except.map, Except.ok.injEq] at hgiv
        obtain ⟨o2, f2⟩ := pr
        dsimp only at hgiv
        subst hgiv
        exact trim_fragment_ok_frag iv.2 frgmnt _ _ o2 f2 htf
    · rw [if_neg hqc] at h
      cases h

/-- C7: whenever `cut_fragments` succeeds on the OverlapResults sharing
an input fragment, the sub-fragments it returns sum to the fragment's
length and, ordered by `(start, end)`, are pairwise non-overlapping,
show `n - 1` abutting adjacent pairs, and have no non-zero gap between
adjacent pairs. -/
theorem cut_fragments_partition (frgmnt : Fragment)
    (scaffolds : List OverlapResult) (subs : List Fragment)
    (hmulti : 2 ≤ scaffolds.length)
    (h : cut_fragments frgmnt scaffolds = .ok subs) :
    frgmnt.length = (subs.map Fragment.length).sum ∧
    List.Perm subs (subs.insertionSort fragLE) ∧
    (subs.insertionSort fragLE).Pairwise (fun a b => a.overlaps b = false) ∧
    ((adjacentPairs (subs.insertionSort fragLE)).countP fun q => q.1.abuts q.2) =
      subs.length - 1 ∧
    (∀ q ∈ adjacentPairs (subs.insertionSort fragLE),
      ∀ g, q.1.gap_between q.2 = some g → g = 0) := by
  obtain ⟨hqc, hprops⟩ := cut_fragments_subs_props frgmnt scaffolds subs h
  unfold qc_sub_fragments_ok at hqc
  simp only [Bool.and_eq_true, decide_eq_true_eq] at hqc
  obtain ⟨⟨⟨hsum, hov⟩, habut⟩, hgap⟩ := hqc
  have hmemsort : ∀ f ∈ subs.insertionSort fragLE,
      f.name = frgmnt.name ∧ f.start ≤ f.stop := fun f hf =>
    hprops f ((List.perm_insertionSort fragLE subs).mem_iff.mp hf)
  refine ⟨hsum, (List.perm_insertionSort fragLE subs).symm, ?_, habut, ?_⟩
  · have hsorted : (subs.insertionSort fragLE).Pairwise fragLE :=
      List.sorted_insertionSort fragLE subs
    have hsep : List.Chain' (fun a b => a.stop < b.start)
        (subs.insertionSort fragLE) := by
      apply adjacentPairs_chain'
      intro q hq
      have h1 : q.1.overlaps q.2 = false := by
        have := List.countP_eq_zero.mp hov q hq
        simpa using this
      have h2 := adjacentPairs_of_pairwise fragLE _ hsorted q hq
      obtain ⟨hm1, hm2⟩ := adjacentPairs_mem _ q hq
      have hnm : q.1.name = q.2.name :=
        (hmemsort q.1 hm1).1.trans (hmemsort q.2 hm2).1.symm
      have hv2 := (hmemsort q.2 hm2).2
      unfold fragLE at h2
      simp only [Fragment.overlaps, Bool.and_eq_false_iff,
        decide_eq_false_iff_not] at h1
      rcases h1 with (h1 | h1) | h1
      · exact absurd hnm h1
      · omega
      · omega
    exact (sep_chain_pairwise _ (fun f hf => (hmemsort f hf).2) hsep).imp
      (fun hab => overlaps_false_of_sep _ _ hab)
  · intro q hq g hg
    have hq' := List.filter_eq_nil_iff.mp hgap q hq
    rw [hg] at hq'
    simpa using hq'

/-- The C7 theorem at the fixtures: `egF7` (100 bases) is cut into
1-60 and 61-100, which abut with no gap and no overlap. -/
theorem cut_fragments_partition_witness :
    2 ≤ ([egO71, egO72] : List OverlapResult).length ∧
    cut_fragments egF7 [egO71, egO72] = .ok egSubs7 ∧
    (egF7.length = (egSubs7.map Fragment.length).sum ∧
     List.Perm egSubs7 (egSubs7.insertionSort fragLE) ∧
     (egSubs7.insertionSort fragLE).Pairwise (fun a b => a.overlaps b = false) ∧
     ((adjacentPairs (egSubs7.insertionSort fragLE)).countP
       fun q => q.1.abuts q.2) = egSubs7.length - 1 ∧
     (∀ q ∈ adjacentPairs (egSubs7.insertionSort fragLE),
       ∀ g, q.1.gap_between q.2 = some g → g = 0)) :=
  ⟨by decide, rfl,
    cut_fragments_partition egF7 [egO71, egO72] egSubs7 (by decide) rfl⟩

end Tola
